import Mathlib

/-!
# Verification of the goder agent core

A shallow embedding of the agent orchestration loop
(`internal/llm/agent/agent.go`), the streaming provider adapter for the
OpenAI Responses API (`OpenAIProvider.processStream`), the tool registry,
and the permission gate (`permission.Service.Check`), together with
theorems settling the specification claims about them.

Modelling conventions:
* Go channels that are written by one goroutine and drained until close are
  modelled as the finite list of values sent before the close.
* `context.Context` cancellation is modelled as a boolean that is constant
  over one run (a Go context, once cancelled, stays cancelled; the agent
  code only ever asks `ctx.Err() != nil`).
* Go `error` values are modelled as `Option String` (`none` = nil).
* Go maps are modelled as association lists; the only map the source
  iterates over is the adapter's `funcCalls` flush, whose iteration order
  Go leaves unspecified — the embedding fixes a deterministic order, and
  every property proved about the flush is order-independent.
* `json.RawMessage` payloads are carried as `String`.
-/

namespace Goder

/-! ## Association-list helpers (the Go map operations used by the source) -/

/-- Lookup in a Go map modelled as an association list. -/
def alGet {α : Type} (m : List (String × α)) (k : String) : Option α :=
  (m.find? (fun p => p.1 = k)).map (fun p => p.2)

/-- Insert/overwrite in a Go map modelled as an association list. -/
def alInsert {α : Type} (m : List (String × α)) (k : String) (v : α) :
    List (String × α) :=
  (k, v) :: m.filter (fun p => p.1 ≠ k)

/-- `delete` on a Go map modelled as an association list. -/
def alErase {α : Type} (m : List (String × α)) (k : String) :
    List (String × α) :=
  m.filter (fun p => p.1 ≠ k)

theorem alGet_nil {α : Type} (k : String) : alGet ([] : List (String × α)) k = none := rfl

theorem alGet_filter_ne {α : Type} (m : List (String × α)) (k k' : String)
    (h : k' ≠ k) :
    alGet (m.filter (fun p => p.1 ≠ k)) k' = alGet m k' := by
  induction m with
  | nil => rfl
  | cons a m ih =>
    by_cases ha : a.1 = k
    · have hne : ¬ (a.1 = k') := by
        intro hk'
        exact h (hk'.symm.trans ha)
      rw [List.filter_cons_of_neg (by simp [ha])]
      rw [ih]
      unfold alGet
      rw [List.find?_cons_of_neg _ (by simp [hne])]
    · rw [List.filter_cons_of_pos (by simp [ha])]
      by_cases ha' : a.1 = k'
      · unfold alGet
        rw [List.find?_cons_of_pos _ (by simp [ha']),
          List.find?_cons_of_pos _ (by simp [ha'])]
      · unfold alGet
        rw [List.find?_cons_of_neg _ (by simp [ha']),
          List.find?_cons_of_neg _ (by simp [ha'])]
        exact ih

theorem alGet_alInsert {α : Type} (m : List (String × α)) (k k' : String) (v : α) :
    alGet (alInsert m k v) k' = if k' = k then some v else alGet m k' := by
  by_cases h : k' = k
  · subst h
    unfold alGet alInsert
    rw [List.find?_cons_of_pos _ (by simp)]
    simp
  · rw [if_neg h]
    unfold alInsert
    rw [show alGet ((k, v) :: m.filter (fun p => p.1 ≠ k)) k'
        = ((((k, v) :: m.filter (fun p => p.1 ≠ k)).find?
            (fun p => p.1 = k')).map (fun p => p.2)) from rfl]
    rw [List.find?_cons_of_neg _ (by simp; exact fun hk => h hk.symm)]
    exact alGet_filter_ne m k k' h

theorem alGet_alErase {α : Type} (m : List (String × α)) (k k' : String) :
    alGet (alErase m k) k' = if k' = k then none else alGet m k' := by
  by_cases h : k' = k
  · subst h
    rw [if_pos rfl]
    induction m with
    | nil => rfl
    | cons a m ih =>
      by_cases ha : a.1 = k'
      · unfold alErase
        rw [List.filter_cons_of_neg (by simp [ha])]
        exact ih
      · unfold alErase
        rw [List.filter_cons_of_pos (by simp [ha])]
        unfold alGet
        rw [List.find?_cons_of_neg _ (by simp [ha])]
        exact ih
  · rw [if_neg h]
    exact alGet_filter_ne m k k' h

/-- A single-quote character as a string (several Go error messages quote the
tool name with it). -/
def squote : String := String.singleton (Char.ofNat 39)

/-! ## Data model — `internal/message/message.go`

`Message.ID` (`generateID()`: timestamp plus random bytes) and
`Message.CreatedAt` (`time.Now()`) are environment-drawn values that no
claim observes; the embedding omits them. -/

/-- `message.Role` — who authored a message. -/
inductive Role
  | user
  | assistant
  | system
  | tool
deriving DecidableEq, Repr

/-- `message.ToolCall` — a tool invocation requested by the LLM.
`Input` is `json.RawMessage`, carried as raw text. -/
structure ToolCall where
  id : String
  name : String
  input : String
deriving DecidableEq, Repr

/-- `message.ToolResult` — the output of a tool execution. -/
structure ToolResult where
  toolCallID : String
  name : String
  output : String
  isError : Bool
deriving DecidableEq, Repr

/-- Modelled from the spec: token-usage counters (input/output/total).
`agent.go` writes `assistantMsg.InputTokens` / `.OutputTokens` /
`.TotalTokens` and `db.go` persists them, but the `message.go` snapshot
under `src/` predates these fields; the spec's data model ("token-usage
counters (input/output/total, integers ≥ 0)") supplies them. -/
structure Usage where
  inputTokens : Int := 0
  outputTokens : Int := 0
  totalTokens : Int := 0
deriving DecidableEq, Repr

/-- `message.Message` — a single message in a conversation.  The token
counter fields are the spec-modelled ones described at `Usage`. -/
structure Message where
  sessionID : String
  role : Role
  content : String
  toolCalls : List ToolCall := []
  toolResults : List ToolResult := []
  inputTokens : Int := 0
  outputTokens : Int := 0
  totalTokens : Int := 0
deriving DecidableEq, Repr

/-- `message.NewAssistantMessage`. -/
def NewAssistantMessage (sessionID content : String) (toolCalls : List ToolCall) :
    Message :=
  { sessionID := sessionID
    role := Role.assistant
    content := content
    toolCalls := toolCalls }

/-- `message.NewToolResultMessage`. -/
def NewToolResultMessage (sessionID : String) (results : List ToolResult) :
    Message :=
  { sessionID := sessionID
    role := Role.tool
    content := ""
    toolResults := results }

/-! ## Provider contract — `internal/llm/provider/provider.go` -/

/-- `provider.StreamEventType`. -/
inductive StreamEventType
  | textDelta
  | toolCallStart
  | toolCallDelta
  | toolCallEnd
  | done
  | error
deriving DecidableEq, Repr

/-- `provider.StreamEvent` — a single event in a streaming LLM response.
The `usage` field is spec-modelled (see `Usage`): `agent.go` reads
`event.Usage` on `EventDone`, but the `provider.go` snapshot under `src/`
lacks the field. -/
structure StreamEvent where
  type : StreamEventType
  text : String := ""
  toolCallID : String := ""
  toolCallName : String := ""
  toolCallInput : String := ""
  error : Option String := none
  usage : Usage := {}
deriving DecidableEq, Repr

/-- `provider.ToolDefinition` — provider-agnostic tool declaration. -/
structure ToolDefinition where
  name : String
  description : String
  parameters : String
deriving DecidableEq, Repr

/-- `provider.Request`. -/
structure Request where
  systemPrompt : String
  messages : List Message
  tools : List ToolDefinition
  maxTokens : Int
deriving DecidableEq, Repr

/-! ## Tools — `Tool` interface and `Registry` (tools package) -/

/-- The `tools.Tool` interface: name, description, JSON-schema parameters,
permission flag, and an execute function returning `(output, error)`
(modelled as `Except`). -/
structure Tool where
  name : String
  description : String
  parameters : String
  requiresPermission : Bool
  execute : String → Except String String

/-- `tools.Registry` — name-keyed map of tools plus insertion order. -/
structure Registry where
  tools : List (String × Tool) := []
  order : List String := []

/-- `Registry.Register` — adds a tool, recording first-insertion order. -/
def Registry.register (r : Registry) (t : Tool) : Registry :=
  { tools := alInsert r.tools t.name t
    order := if (alGet r.tools t.name).isSome then r.order else r.order ++ [t.name] }

/-- `Registry.Get` — lookup by name. -/
def Registry.get (r : Registry) (name : String) : Option Tool :=
  alGet r.tools name

/-- `Registry.All` — all registered tools in insertion order. -/
def Registry.all (r : Registry) : List Tool :=
  r.order.filterMap (fun name => alGet r.tools name)

/-! ## Permission gate data — `permission` package (second half of
`src/internal/tools/bash.go`) -/

/-- `permission.Response` — the user's permission decision. -/
inductive Response
  | allow
  | deny
  | allowForSession
deriving DecidableEq, Repr

/-! ## Agent — `internal/llm/agent/agent.go` -/

/-- `agent.EventType` — event kinds sent from the agent to the TUI. -/
inductive EventType
  | streamText
  | toolCallStart
  | toolCallEnd
  | toolResult
  | agentDone
  | agentError
  | permissionRequest
  | persistMessage
deriving DecidableEq, Repr

/-- `agent.Event` — one AgentEvent sent from the agent loop to the TUI. -/
structure Event where
  type : EventType
  text : String := ""
  toolCallID : String := ""
  toolCallName : String := ""
  toolInput : String := ""
  toolOutput : String := ""
  toolIsError : Bool := false
  error : Option String := none
  finalMessage : Option Message := none
deriving DecidableEq, Repr

/-- `agent.DefaultMaxIterations`. -/
def DefaultMaxIterations : Int := 25

/-- The Go error string produced by `ctx.Err()` for a cancelled context. -/
def ctxCanceledMsg : String := "context canceled"

/-- `agent.Agent`.  `provider` is the `Provider.SendMessage` behaviour: the
request either fails at construction (`Except.error`) or yields the finite
list of `StreamEvent`s the returned channel delivers before it is closed.
`permSvc` is `nil` or the observable behaviour of
`permission.Service.Check` (the blocking resolution of `Check` itself is
modelled separately below). -/
structure Agent where
  provider : Request → Except String (List StreamEvent)
  registry : Registry
  permSvc : Option (String → String → Response)
  workDir : String
  mode : String
  maxTokens : Int
  maxIterations : Int

/-- `agent.Config`. -/
structure Config where
  provider : Request → Except String (List StreamEvent)
  registry : Registry
  permSvc : Option (String → String → Response)
  workDir : String
  mode : String
  maxTokens : Int
  maxIterations : Int

/-- `agent.New` — defaults a non-positive `MaxIterations` to 25. -/
def New (cfg : Config) : Agent :=
  { provider := cfg.provider
    registry := cfg.registry
    permSvc := cfg.permSvc
    workDir := cfg.workDir
    mode := cfg.mode
    maxTokens := cfg.maxTokens
    maxIterations := if cfg.maxIterations ≤ 0 then DefaultMaxIterations else cfg.maxIterations }

/-- `prompt.BuildSystemPrompt` (part_001).  The platform
(`runtime.GOOS`/`GOARCH`) and date (`time.Now()`) lines are environment
inputs fixed here to placeholder values; no claim observes the prompt
text. -/
def BuildSystemPrompt (mode workDir : String) (registry : Registry) : String :=
  let corePromptText := "You are goder, an expert AI coding assistant running in a terminal."
  let env := "# Environment\n\n- Working directory: " ++ workDir ++
    "\n- Platform: linux/amd64\n- Date: Mon Jan 2 2006\n- Mode: " ++ mode ++ "\n\n"
  let modeSection :=
    if mode = "plan" then
      "# Mode: PLAN\n\nYou are in PLAN mode. You should analyze and reason about the codebase but NOT make any modifications.\n"
    else
      "# Mode: BUILD\n\nYou are in BUILD mode. You can create, edit, and delete files and run commands.\n"
  let toolsSection :=
    "# Available Tools\n\n" ++
      String.join (registry.all.map (fun t => "## " ++ t.name ++ "\n" ++ t.description ++ "\n\n"))
  corePromptText ++ "\n\n" ++ env ++ modeSection ++ toolsSection

/-- `Agent.buildToolDefs` — tool declarations sent to the model, filtered
by mode: in plan mode, tools that require permission are skipped. -/
def Agent.buildToolDefs (a : Agent) : List ToolDefinition :=
  (a.registry.all.filter
      (fun t => ¬ (a.mode = "plan" ∧ t.requiresPermission = true))).map
    (fun t => { name := t.name, description := t.description, parameters := t.parameters })

/-- `Agent.executeTool` — runs a single tool call, handling the unknown
tool, plan-mode, and permission-denial cases. -/
def Agent.executeTool (a : Agent) (tc : ToolCall) : ToolResult :=
  match a.registry.get tc.name with
  | none =>
    { toolCallID := tc.id
      name := tc.name
      output := "Error: unknown tool " ++ squote ++ tc.name ++ squote
      isError := true }
  | some tool =>
    if a.mode = "plan" ∧ tool.requiresPermission = true then
      { toolCallID := tc.id
        name := tc.name
        output := "Error: tool " ++ squote ++ tc.name ++ squote ++
          " is not available in PLAN mode. Switch to BUILD mode to use this tool."
        isError := true }
    else
      let denied : Bool :=
        match a.permSvc with
        | some check => tool.requiresPermission && decide (check tc.name tc.input = Response.deny)
        | none => false
      if denied then
        { toolCallID := tc.id
          name := tc.name
          output := "Permission denied by user."
          isError := true }
      else
        match tool.execute tc.input with
        | Except.error e =>
          { toolCallID := tc.id, name := tc.name, output := "Error: " ++ e, isError := true }
        | Except.ok output =>
          { toolCallID := tc.id, name := tc.name, output := output, isError := false }

/-- The agent loop's per-turn accumulation state (`textContent`,
`toolCalls`, `pendingCalls`, `usage` locals of `runLoop`).
`pendingCalls` is the `map[string]*pendingToolCall` keyed by call id. -/
structure PendingToolCall where
  id : String
  name : String
  args : String := ""
deriving DecidableEq, Repr

structure StreamAcc where
  textContent : String := ""
  toolCalls : List ToolCall := []
  pendingCalls : List (String × PendingToolCall) := []
  usage : Usage := {}
deriving DecidableEq, Repr

/-- The `for event := range streamCh` loop of `Agent.runLoop`
(agent.go lines 156–208).  Returns the AgentEvents re-emitted while
consuming the provider stream, the final accumulation state, and whether
the loop hit a provider `EventError` (in which case the error AgentEvent
is the last element of the returned list and `runLoop` returns). -/
def consumeStream : List StreamEvent → StreamAcc → (List Event × StreamAcc × Bool)
  | [], acc => ([], acc, false)
  | e :: rest, acc =>
    match e.type with
    | StreamEventType.textDelta =>
      let r := consumeStream rest { acc with textContent := acc.textContent ++ e.text }
      ({ type := EventType.streamText, text := e.text } :: r.1, r.2)
    | StreamEventType.toolCallStart =>
      let pending : PendingToolCall := { id := e.toolCallID, name := e.toolCallName }
      let r := consumeStream rest
        { acc with pendingCalls := alInsert acc.pendingCalls e.toolCallID pending }
      ({ type := EventType.toolCallStart
         toolCallID := e.toolCallID
         toolCallName := e.toolCallName } :: r.1, r.2)
    | StreamEventType.toolCallDelta =>
      match alGet acc.pendingCalls e.toolCallID with
      | some pending =>
        let updated : PendingToolCall := { pending with args := pending.args ++ e.toolCallInput }
        consumeStream rest
          { acc with pendingCalls := alInsert acc.pendingCalls e.toolCallID updated }
      | none => consumeStream rest acc
    | StreamEventType.toolCallEnd =>
      match alGet acc.pendingCalls e.toolCallID with
      | some pending =>
        let input := if e.toolCallInput ≠ "" then e.toolCallInput else pending.args
        let r := consumeStream rest
          { acc with
            toolCalls := acc.toolCalls ++ [{ id := pending.id, name := pending.name, input := input }]
            pendingCalls := alErase acc.pendingCalls e.toolCallID }
        ({ type := EventType.toolCallEnd
           toolCallID := pending.id
           toolCallName := pending.name
           toolInput := input } :: r.1, r.2)
      | none => consumeStream rest acc
    | StreamEventType.error =>
      ([{ type := EventType.agentError, error := e.error }], acc, true)
    | StreamEventType.done =>
      consumeStream rest { acc with usage := e.usage }

/-- The tool-execution loop of `Agent.runLoop` (agent.go lines 229–246):
executes the calls strictly in order, checking `ctx.Err()` before each
call.  Returns the emitted `tool-result` AgentEvents, the collected
results, and whether cancellation aborted the loop (in which case the
error AgentEvent is last and `runLoop` returns). -/
def Agent.execToolLoop (a : Agent) (ctxCancelled : Bool) :
    List ToolCall → (List Event × List ToolResult × Bool)
  | [] => ([], [], false)
  | tc :: rest =>
    if ctxCancelled then
      ([{ type := EventType.agentError, error := some ctxCanceledMsg }], [], true)
    else
      let result := a.executeTool tc
      let r := a.execToolLoop ctxCancelled rest
      ({ type := EventType.toolResult
         toolCallID := tc.id
         toolCallName := tc.name
         toolOutput := result.output
         toolIsError := result.isError } :: r.1,
       result :: r.2.1, r.2.2)

/-- The result of one `Run` invocation: the AgentEvents delivered on the
channel before it is closed, plus an instrumentation count of how many
times `provider.SendMessage` was invoked (observable in Go as the number
of HTTP requests issued). -/
structure RunResult where
  events : List Event
  providerCalls : Nat
deriving Repr

/-- The `for iteration := 0; iteration < a.maxIterations; iteration++`
body of `Agent.runLoop` (agent.go lines 124–261), with the remaining
iteration budget as fuel.  Exhausted fuel is the loop falling through to
the max-iterations error.  `systemPrompt` and `toolDefs` are computed
once by `runLoop` before the loop and passed through unchanged. -/
def Agent.runIter (a : Agent) (ctxCancelled : Bool) (sessionID : String)
    (systemPrompt : String) (toolDefs : List ToolDefinition) :
    Nat → List Message → RunResult
  | 0, _ =>
    { events := [{ type := EventType.agentError
                   error := some ("agent reached maximum iterations (" ++
                     toString a.maxIterations ++ ")") }]
      providerCalls := 0 }
  | Nat.succ n, currentHistory =>
    if ctxCancelled then
      { events := [{ type := EventType.agentError, error := some ctxCanceledMsg }]
        providerCalls := 0 }
    else
      let req : Request :=
        { systemPrompt := systemPrompt
          messages := currentHistory
          tools := toolDefs
          maxTokens := a.maxTokens }
      match a.provider req with
      | Except.error err =>
        { events := [{ type := EventType.agentError
                       error := some ("LLM request failed: " ++ err) }]
          providerCalls := 1 }
      | Except.ok stream =>
        let c := consumeStream stream {}
        let streamEvents := c.1
        let acc := c.2.1
        if c.2.2 then
          -- provider EventError: the error AgentEvent is already emitted
          { events := streamEvents, providerCalls := 1 }
        else
          let assistantMsg : Message :=
            { NewAssistantMessage sessionID acc.textContent acc.toolCalls with
              inputTokens := acc.usage.inputTokens
              outputTokens := acc.usage.outputTokens
              totalTokens := acc.usage.totalTokens }
          let historyWithAssistant := currentHistory ++ [assistantMsg]
          if acc.toolCalls = [] then
            { events := streamEvents ++
                [{ type := EventType.agentDone, finalMessage := some assistantMsg }]
              providerCalls := 1 }
          else
            let persistAssistant : Event :=
              { type := EventType.persistMessage, finalMessage := some assistantMsg }
            let t := a.execToolLoop ctxCancelled acc.toolCalls
            if t.2.2 then
              -- cancellation observed before a tool call
              { events := streamEvents ++ [persistAssistant] ++ t.1, providerCalls := 1 }
            else
              let toolResultMsg := NewToolResultMessage sessionID t.2.1
              let rest := a.runIter ctxCancelled sessionID systemPrompt toolDefs n
                (historyWithAssistant ++ [toolResultMsg])
              { events := streamEvents ++ [persistAssistant] ++ t.1 ++
                  [{ type := EventType.persistMessage, finalMessage := some toolResultMsg }] ++
                  rest.events
                providerCalls := 1 + rest.providerCalls }

/-- `Agent.Run` / `Agent.runLoop` entry: builds the system prompt and tool
definitions, then runs the bounded loop.  The returned `events` list is
everything delivered on the channel before `close(events)`. -/
def Agent.run (a : Agent) (ctxCancelled : Bool) (history : List Message)
    (sessionID : String) : RunResult :=
  a.runIter ctxCancelled sessionID
    (BuildSystemPrompt a.mode a.workDir a.registry)
    a.buildToolDefs
    a.maxIterations.toNat history

/-! ## Provider adapter — `OpenAIProvider.processStream` (Responses API,
`src/unnamed/part_000`)

The SSE transport layers (`bufio.Scanner`, the `data: ` prefix checks,
`json.Unmarshal`) are Go-library behaviour; the embedding starts from the
classified line, carrying a parse failure (`malformed`) explicitly.  A
scanner error surfacing after the read loop is the `scanErr` parameter. -/

/-- `respOutputItem` — an item in the response output array
(the result of `json.Unmarshal(evt.Item, &item)`). -/
structure RespOutputItem where
  id : String := ""
  type : String := ""
  role : String := ""
  name : String := ""
  callID : String := ""
  arguments : String := ""
deriving DecidableEq, Repr

/-- The `Error` payload of `respResponseBody`. -/
structure RespErrorBody where
  message : String := ""
  code : String := ""
deriving DecidableEq, Repr

/-- `respStreamEvent` — the generic SSE event from the Responses API.
`item = none` models `json.Unmarshal(evt.Item, &item)` failing;
`responseError = none` models `json.Unmarshal(evt.Response, &respBody)`
failing or `respBody.Error == nil`. -/
structure RespStreamEvent where
  type : String := ""
  item : Option RespOutputItem := none
  delta : String := ""
  itemID : String := ""
  responseError : Option RespErrorBody := none
deriving DecidableEq, Repr

/-- One line delivered by the SSE scanner, classified the way
`processStream` classifies it: blank lines, `:` comments, `event: ` lines
and other non-`data: ` lines are skipped, malformed JSON on a `data: `
line is skipped, and a well-formed `data: ` line carries its decoded
event. -/
inductive WireLine
  | blank
  | comment (text : String)
  | eventLine (text : String)
  | other (text : String)
  | malformed (text : String)
  | data (evt : RespStreamEvent)
deriving DecidableEq, Repr

/-- `funcCallState` — the adapter's per-item tool-call accumulator
(`funcCalls` is keyed by the provider's item id, not the call id). -/
structure FuncCallState where
  id : String := ""
  name : String := ""
  arguments : String := ""
  started : Bool := false
deriving DecidableEq, Repr

/-- The `response.completed` flush: every still-open call that has emitted
its start event is finalized with its accumulated argument text.  Go
iterates the map in unspecified order; the embedding uses the list
order (all properties proved are order-independent). -/
def flushFuncCalls (fcs : List (String × FuncCallState)) : List StreamEvent :=
  (fcs.filter (fun p => p.2.started = true)).map
    (fun p =>
      { type := StreamEventType.toolCallEnd
        toolCallID := p.2.id
        toolCallName := p.2.name
        toolCallInput := p.2.arguments })

/-- `OpenAIProvider.processStream` (part_000 lines 288–492): the scanner
loop over wire lines, with the tool-call accumulation keyed by item id.
`ctxCancelled` is the per-iteration `ctx.Err()` check; `scanErr` is
`scanner.Err()` after the loop. -/
def processStream (ctxCancelled : Bool) :
    List WireLine → List (String × FuncCallState) → Option String → List StreamEvent
  | [], _, scanErr =>
    match scanErr with
    | some e => [{ type := StreamEventType.error, error := some ("reading stream: " ++ e) }]
    | none => [{ type := StreamEventType.done }]
  | line :: rest, fcs, scanErr =>
    if ctxCancelled then
      [{ type := StreamEventType.error, error := some ctxCanceledMsg }]
    else
      match line with
      | WireLine.blank => processStream ctxCancelled rest fcs scanErr
      | WireLine.comment _ => processStream ctxCancelled rest fcs scanErr
      | WireLine.eventLine _ => processStream ctxCancelled rest fcs scanErr
      | WireLine.other _ => processStream ctxCancelled rest fcs scanErr
      | WireLine.malformed _ => processStream ctxCancelled rest fcs scanErr
      | WireLine.data evt =>
        if evt.type = "response.output_text.delta" then
          if evt.delta ≠ "" then
            { type := StreamEventType.textDelta, text := evt.delta } ::
              processStream ctxCancelled rest fcs scanErr
          else processStream ctxCancelled rest fcs scanErr
        else if evt.type = "response.output_item.added" then
          match evt.item with
          | none => processStream ctxCancelled rest fcs scanErr
          | some item =>
            if item.type = "function_call" then
              if item.callID ≠ "" ∧ item.name ≠ "" then
                let state : FuncCallState :=
                  { id := item.callID, name := item.name, started := true }
                { type := StreamEventType.toolCallStart
                  toolCallID := state.id
                  toolCallName := state.name } ::
                  processStream ctxCancelled rest (alInsert fcs item.id state) scanErr
              else
                let state : FuncCallState := { id := item.callID, name := item.name }
                processStream ctxCancelled rest (alInsert fcs item.id state) scanErr
            else processStream ctxCancelled rest fcs scanErr
        else if evt.type = "response.function_call_arguments.delta" then
          if evt.delta ≠ "" then
            let state :=
              match alGet fcs evt.itemID with
              | some s => s
              | none => {}
            let updated : FuncCallState :=
              { state with arguments := state.arguments ++ evt.delta }
            { type := StreamEventType.toolCallDelta
              toolCallID := updated.id
              toolCallName := updated.name
              toolCallInput := evt.delta } ::
              processStream ctxCancelled rest (alInsert fcs evt.itemID updated) scanErr
          else processStream ctxCancelled rest fcs scanErr
        else if evt.type = "response.function_call_arguments.done" then
          match alGet fcs evt.itemID with
          | some state =>
            let finalArgs := if evt.delta ≠ "" then evt.delta else state.arguments
            { type := StreamEventType.toolCallEnd
              toolCallID := state.id
              toolCallName := state.name
              toolCallInput := finalArgs } ::
              processStream ctxCancelled rest (alErase fcs evt.itemID) scanErr
          | none => processStream ctxCancelled rest fcs scanErr
        else if evt.type = "response.output_item.done" then
          match evt.item with
          | none => processStream ctxCancelled rest fcs scanErr
          | some item =>
            if item.type = "function_call" then
              match alGet fcs item.id with
              | some state =>
                let finalArgs := if item.arguments ≠ "" then item.arguments else state.arguments
                let endEvents : List StreamEvent :=
                  [{ type := StreamEventType.toolCallEnd
                     toolCallID := item.callID
                     toolCallName := item.name
                     toolCallInput := finalArgs }]
                let startEvents : List StreamEvent :=
                  if state.started = true then [] else
                    [{ type := StreamEventType.toolCallStart
                       toolCallID := item.callID
                       toolCallName := item.name }]
                startEvents ++ endEvents ++
                  processStream ctxCancelled rest (alErase fcs item.id) scanErr
              | none => processStream ctxCancelled rest fcs scanErr
            else processStream ctxCancelled rest fcs scanErr
        else if evt.type = "response.completed" then
          flushFuncCalls fcs ++ [{ type := StreamEventType.done }]
        else if evt.type = "response.failed" then
          match evt.responseError with
          | some e =>
            [{ type := StreamEventType.error
               error := some ("OpenAI API error (" ++ e.code ++ "): " ++ e.message) }]
          | none => [{ type := StreamEventType.error, error := some "response failed" }]
        else if evt.type = "response.incomplete" then
          [{ type := StreamEventType.error
             error := some "response incomplete (model stopped early)" }]
        else
          processStream ctxCancelled rest fcs scanErr

/-- Modelled from the spec: the terminal `done` event "carrying
token-usage totals if the provider reported them (zero otherwise)".
`agent.go` reads `event.Usage` from the `EventDone` stream event, but the
provider snapshot under `src/` predates the usage plumbing (its
`StreamEvent` has no usage field and `processStream` never decodes the
`response.completed` usage payload), so the attachment of the
provider-reported totals to the done event is modelled here:
`reported = none` means the provider did not report usage. -/
def attachReportedUsage (reported : Option Usage) (evs : List StreamEvent) :
    List StreamEvent :=
  evs.map (fun e =>
    if e.type = StreamEventType.done then
      { e with usage := match reported with | some u => u | none => {} }
    else e)

/-! ## Permission gate — `permission.Service.Check`
(second half of `src/internal/tools/bash.go`)

`Check` first consults the session allowlist, then runs two Go `select`
statements: one racing `s.requestCh <- req` (the request channel is
buffered with capacity 1) against `<-ctx.Done()`, and one racing
`<-respCh` against `<-ctx.Done()`.  When several branches are ready Go
picks one pseudo-randomly, so the embedding takes the resolution of each
select as an input, constrained by `CheckEnv.valid` to branches that were
actually ready. -/

/-- `permission.Service` state: the in-memory session allowlist. -/
structure PermService where
  sessionAllowed : List String := []
deriving DecidableEq, Repr

/-- Which branch the first select (publish vs cancellation) resolved to. -/
inductive SelectBranch
  | send
  | ctxDone
deriving DecidableEq, Repr

/-- Which branch the second select (response vs cancellation) resolved
to. -/
inductive RecvBranch
  | received (r : Response)
  | ctxDone
deriving DecidableEq, Repr

/-- The environment of one `Check` call: whether the context is cancelled
(by the time the selects run), whether the buffered request channel can
accept a send, and how each select resolved. -/
structure CheckEnv where
  ctxCancelled : Bool
  sendReady : Bool
  first : SelectBranch
  second : RecvBranch
deriving DecidableEq, Repr

/-- A select can only resolve to a branch that was ready: the send branch
needs room in (or a reader on) `requestCh`, and the `ctx.Done()` branches
need the context cancelled. -/
def CheckEnv.valid (env : CheckEnv) : Prop :=
  (env.first = SelectBranch.send → env.sendReady = true) ∧
  (env.first = SelectBranch.ctxDone → env.ctxCancelled = true) ∧
  (env.second = RecvBranch.ctxDone → env.ctxCancelled = true)

instance (env : CheckEnv) : Decidable env.valid := by
  unfold CheckEnv.valid
  infer_instance

/-- The observable outcome of one `Check` call: the returned `Response`,
whether a `PermissionRequest` was published on `requestCh`, and the
updated service state. -/
structure CheckOutcome where
  response : Response
  published : Bool
  svc : PermService
deriving DecidableEq, Repr

/-- `permission.Service.Check`: allowlist fast path, then the two selects.
`AllowForSession` adds the tool to the session allowlist and returns
`Allow`; taking a `ctx.Done()` branch returns `Deny`. -/
def PermService.check (s : PermService) (env : CheckEnv) (toolName : String)
    (_input : String) : CheckOutcome :=
  if toolName ∈ s.sessionAllowed then
    { response := Response.allow, published := false, svc := s }
  else
    match env.first with
    | SelectBranch.ctxDone =>
      { response := Response.deny, published := false, svc := s }
    | SelectBranch.send =>
      match env.second with
      | RecvBranch.ctxDone =>
        { response := Response.deny, published := true, svc := s }
      | RecvBranch.received r =>
        if r = Response.allowForSession then
          { response := Response.allow
            published := true
            svc := { s with sessionAllowed := toolName :: s.sessionAllowed } }
        else
          { response := r, published := true, svc := s }

/-! ## Observers on AgentEvent lists -/

/-- A terminal AgentEvent: `done` or `error`. -/
def Event.isTerminal (e : Event) : Bool :=
  match e.type with
  | EventType.agentDone => true
  | EventType.agentError => true
  | _ => false

/-- An event the agent re-emits while consuming the provider stream:
text delta, tool-call start, or tool-call end. -/
def Event.isStreamish (e : Event) : Prop :=
  e.type = EventType.streamText ∨ e.type = EventType.toolCallStart ∨
    e.type = EventType.toolCallEnd

theorem isStreamish_not_terminal (e : Event) (h : e.isStreamish) :
    e.isTerminal = false := by
  rcases h with h | h | h <;> simp [Event.isTerminal, h]

/-! ## Structure of the stream-consumption loop -/

/-- Splitting off a head element preserves the "all of `pre` satisfy `Q`,
the last element satisfies `P`" decomposition. -/
theorem shape_cons {α : Type} {P Q : α → Prop} {hd : α} {l : List α}
    (h : ∃ pre last, l = pre ++ [last] ∧ P last ∧ ∀ e ∈ pre, Q e)
    (hhd : Q hd) :
    ∃ pre last, hd :: l = pre ++ [last] ∧ P last ∧ ∀ e ∈ pre, Q e := by
  obtain ⟨pre, last, rfl, hl, hp⟩ := h
  refine ⟨hd :: pre, last, rfl, hl, ?_⟩
  intro e he
  rcases List.mem_cons.mp he with rfl | he
  · exact hhd
  · exact hp e he

theorem consumeStream_ok_types :
    ∀ (s : List StreamEvent) (acc : StreamAcc),
      (consumeStream s acc).2.2 = false →
      ∀ e ∈ (consumeStream s acc).1, e.isStreamish := by
  intro s
  induction s with
  | nil =>
    intro acc h e he
    simp [consumeStream] at he
  | cons x rest ih =>
    obtain ⟨xt, xtext, xid, xname, xinput, xerr, xusage⟩ := x
    intro acc h e he
    cases xt
    case textDelta =>
      simp only [consumeStream, List.mem_cons] at he h
      rcases he with rfl | he
      · exact Or.inl rfl
      · exact ih _ h e he
    case toolCallStart =>
      simp only [consumeStream, List.mem_cons] at he h
      rcases he with rfl | he
      · exact Or.inr (Or.inl rfl)
      · exact ih _ h e he
    case toolCallDelta =>
      cases hg : alGet acc.pendingCalls xid with
      | some pending =>
        simp only [consumeStream, hg] at he h
        exact ih _ h e he
      | none =>
        simp only [consumeStream, hg] at he h
        exact ih _ h e he
    case toolCallEnd =>
      cases hg : alGet acc.pendingCalls xid with
      | some pending =>
        simp only [consumeStream, hg, List.mem_cons] at he h
        rcases he with rfl | he
        · exact Or.inr (Or.inr rfl)
        · exact ih _ h e he
      | none =>
        simp only [consumeStream, hg] at he h
        exact ih _ h e he
    case error =>
      simp [consumeStream] at h
    case done =>
      simp only [consumeStream] at he h
      exact ih _ h e he

theorem consumeStream_abort_shape :
    ∀ (s : List StreamEvent) (acc : StreamAcc),
      (consumeStream s acc).2.2 = true →
      ∃ pre last, (consumeStream s acc).1 = pre ++ [last] ∧
        last.type = EventType.agentError ∧ ∀ e ∈ pre, e.isStreamish := by
  intro s
  induction s with
  | nil =>
    intro acc h
    simp [consumeStream] at h
  | cons x rest ih =>
    obtain ⟨xt, xtext, xid, xname, xinput, xerr, xusage⟩ := x
    intro acc h
    cases xt
    case textDelta =>
      simp only [consumeStream] at h ⊢
      exact shape_cons (ih _ h) (Or.inl rfl)
    case toolCallStart =>
      simp only [consumeStream] at h ⊢
      exact shape_cons (ih _ h) (Or.inr (Or.inl rfl))
    case toolCallDelta =>
      cases hg : alGet acc.pendingCalls xid with
      | some pending =>
        simp only [consumeStream, hg] at h ⊢
        exact ih _ h
      | none =>
        simp only [consumeStream, hg] at h ⊢
        exact ih _ h
    case toolCallEnd =>
      cases hg : alGet acc.pendingCalls xid with
      | some pending =>
        simp only [consumeStream, hg] at h ⊢
        exact shape_cons (ih _ h) (Or.inr (Or.inr rfl))
      | none =>
        simp only [consumeStream, hg] at h ⊢
        exact ih _ h
    case error =>
      simp only [consumeStream]
      exact ⟨[], _, rfl, rfl, by intro e he; simp at he⟩
    case done =>
      simp only [consumeStream] at h ⊢
      exact ih _ h

/-! ## Structure of the tool-execution loop -/

/-- The `tool-result` AgentEvent emitted for one executed call. -/
def toolResultEvent (tc : ToolCall) (res : ToolResult) : Event :=
  { type := EventType.toolResult
    toolCallID := tc.id
    toolCallName := tc.name
    toolOutput := res.output
    toolIsError := res.isError }

/-- With no cancellation, the tool loop executes every call in order and
emits exactly one `tool-result` AgentEvent per call. -/
theorem execToolLoop_no_cancel (a : Agent) :
    ∀ tcs : List ToolCall,
      a.execToolLoop false tcs =
        (tcs.map (fun tc => toolResultEvent tc (a.executeTool tc)),
         tcs.map a.executeTool, false) := by
  intro tcs
  induction tcs with
  | nil => rfl
  | cons tc rest ih =>
    simp [Agent.execToolLoop, ih, toolResultEvent]

theorem execToolLoop_ok_types (a : Agent) (ctx : Bool) :
    ∀ tcs : List ToolCall,
      (a.execToolLoop ctx tcs).2.2 = false →
      ∀ e ∈ (a.execToolLoop ctx tcs).1, e.type = EventType.toolResult := by
  intro tcs
  induction tcs with
  | nil =>
    intro h e he
    simp [Agent.execToolLoop] at he
  | cons tc rest ih =>
    intro h e he
    by_cases hc : ctx = true
    · subst hc
      simp [Agent.execToolLoop] at h
    · rw [Bool.not_eq_true] at hc
      subst hc
      simp only [Agent.execToolLoop, Bool.false_eq_true, if_false,
        List.mem_cons] at he h
      rcases he with rfl | he
      · rfl
      · exact ih h e he

theorem execToolLoop_abort_shape (a : Agent) (ctx : Bool) :
    ∀ tcs : List ToolCall,
      (a.execToolLoop ctx tcs).2.2 = true →
      ∃ pre last, (a.execToolLoop ctx tcs).1 = pre ++ [last] ∧
        last.type = EventType.agentError ∧
        ∀ e ∈ pre, e.type = EventType.toolResult := by
  intro tcs
  induction tcs with
  | nil =>
    intro h
    simp [Agent.execToolLoop] at h
  | cons tc rest ih =>
    intro h
    by_cases hc : ctx = true
    · subst hc
      simp only [Agent.execToolLoop, if_true]
      exact ⟨[], _, rfl, rfl, by intro e he; simp at he⟩
    · rw [Bool.not_eq_true] at hc
      subst hc
      simp only [Agent.execToolLoop, Bool.false_eq_true, if_false] at h ⊢
      exact shape_cons (ih h) rfl

/-! ## C1 — one terminal AgentEvent per Run invocation -/

/-- Prepending a block of `Q` elements preserves the decomposition. -/
theorem shape_append {α : Type} {P Q : α → Prop} {l1 l2 : List α}
    (h : ∃ pre last, l2 = pre ++ [last] ∧ P last ∧ ∀ e ∈ pre, Q e)
    (h1 : ∀ e ∈ l1, Q e) :
    ∃ pre last, l1 ++ l2 = pre ++ [last] ∧ P last ∧ ∀ e ∈ pre, Q e := by
  obtain ⟨pre, last, rfl, hl, hp⟩ := h
  refine ⟨l1 ++ pre, last, (List.append_assoc _ _ _).symm, hl, ?_⟩
  intro e he
  rcases List.mem_append.mp he with he | he
  · exact h1 e he
  · exact hp e he

theorem isTerminal_of_error {e : Event} (h : e.type = EventType.agentError) :
    e.isTerminal = true := by
  simp [Event.isTerminal, h]

theorem isTerminal_of_done {e : Event} (h : e.type = EventType.agentDone) :
    e.isTerminal = true := by
  simp [Event.isTerminal, h]

theorem not_terminal_of_toolResult {e : Event} (h : e.type = EventType.toolResult) :
    e.isTerminal = false := by
  simp [Event.isTerminal, h]

theorem not_terminal_of_persist {e : Event} (h : e.type = EventType.persistMessage) :
    e.isTerminal = false := by
  simp [Event.isTerminal, h]

/-- The events of one `runLoop` invocation always consist of non-terminal
events followed by exactly one terminal event; a terminal `done` always
carries an assistant message. -/
theorem runIter_terminal (a : Agent) (ctx : Bool) (sid sp : String)
    (td : List ToolDefinition) :
    ∀ (n : Nat) (hist : List Message),
      ∃ pre last, (a.runIter ctx sid sp td n hist).events = pre ++ [last] ∧
        (last.isTerminal = true ∧
          (last.type = EventType.agentDone →
            ∃ m, last.finalMessage = some m ∧ m.role = Role.assistant)) ∧
        ∀ e ∈ pre, e.isTerminal = false := by
  intro n
  induction n with
  | zero =>
    intro hist
    refine ⟨[], _, rfl, ⟨rfl, ?_⟩, by intro e he; simp at he⟩
    intro hdone
    simp at hdone
  | succ n ih =>
    intro hist
    by_cases hc : ctx = true
    · subst hc
      simp only [Agent.runIter, if_true]
      refine ⟨[], _, rfl, ⟨rfl, ?_⟩, by intro e he; simp at he⟩
      intro hdone
      simp at hdone
    · rw [Bool.not_eq_true] at hc
      subst hc
      simp only [Agent.runIter, Bool.false_eq_true, if_false]
      cases hp : a.provider
          { systemPrompt := sp, messages := hist, tools := td, maxTokens := a.maxTokens } with
      | error err =>
        refine ⟨[], _, rfl, ⟨rfl, ?_⟩, by intro e he; simp at he⟩
        intro hdone
        simp at hdone
      | ok stream =>
        by_cases habort : (consumeStream stream {}).2.2 = true
        · simp only [habort, if_true]
          obtain ⟨pre, last, hsplit, hlast, hpre⟩ := consumeStream_abort_shape stream {} habort
          refine ⟨pre, last, hsplit, ⟨isTerminal_of_error hlast, ?_⟩, ?_⟩
          · intro hdone
            rw [hlast] at hdone
            simp at hdone
          · intro e he
            exact isStreamish_not_terminal e (hpre e he)
        · rw [Bool.not_eq_true] at habort
          simp only [habort, Bool.false_eq_true, if_false]
          have hstreamish := consumeStream_ok_types stream {} habort
          by_cases hcalls : (consumeStream stream {}).2.1.toolCalls = []
          · simp only [hcalls, if_true]
            refine shape_append ?_ ?_
            · refine ⟨[], _, rfl, ⟨rfl, ?_⟩, by intro e he; simp at he⟩
              intro _
              exact ⟨_, rfl, rfl⟩
            · intro e he
              exact isStreamish_not_terminal e (hstreamish e he)
          · simp only [hcalls, if_false]
            by_cases htool :
                (a.execToolLoop false (consumeStream stream {}).2.1.toolCalls).2.2 = true
            · simp only [htool, if_true]
              obtain ⟨pre, last, hsplit, hlast, hpre⟩ :=
                execToolLoop_abort_shape a false _ htool
              refine shape_append ?_ ?_
              · refine ⟨pre, last, hsplit, ⟨isTerminal_of_error hlast, ?_⟩, ?_⟩
                · intro hdone
                  rw [hlast] at hdone
                  simp at hdone
                · intro e he
                  exact not_terminal_of_toolResult (hpre e he)
              · intro e he
                rcases List.mem_append.mp he with he | he
                · exact isStreamish_not_terminal e (hstreamish e he)
                · rcases List.mem_singleton.mp he with rfl
                  exact not_terminal_of_persist rfl
            · rw [Bool.not_eq_true] at htool
              simp only [htool, Bool.false_eq_true, if_false]
              obtain ⟨pre, last, hsplit, hlast, hpre⟩ := ih _
              refine shape_append ?_ ?_
              · exact ⟨pre, last, hsplit, hlast, hpre⟩
              · intro e he
                rcases List.mem_append.mp he with he | he
                · rcases List.mem_append.mp he with he | he
                  · rcases List.mem_append.mp he with he | he
                    · exact isStreamish_not_terminal e (hstreamish e he)
                    · rcases List.mem_singleton.mp he with rfl
                      exact not_terminal_of_persist rfl
                  · exact not_terminal_of_toolResult
                      (execToolLoop_ok_types a false _ htool e he)
                · rcases List.mem_singleton.mp he with rfl
                  exact not_terminal_of_persist rfl

/-- C1: for every invocation of `Agent.Run`, exactly one terminal
AgentEvent is emitted — a `done` (which carries an assistant message) or
an `error` — no AgentEvent follows the terminal one, and the event
channel is closed afterwards (the modelled event list ends with the
terminal event). -/
theorem run_exactly_one_terminal (a : Agent) (ctx : Bool)
    (history : List Message) (sessionID : String) :
    ∃ pre last, (a.run ctx history sessionID).events = pre ++ [last] ∧
      last.isTerminal = true ∧
      (last.type = EventType.agentDone ∨ last.type = EventType.agentError) ∧
      (last.type = EventType.agentDone →
        ∃ m, last.finalMessage = some m ∧ m.role = Role.assistant) ∧
      ∀ e ∈ pre, e.isTerminal = false := by
  obtain ⟨pre, last, hsplit, ⟨hterm, hdone⟩, hpre⟩ :=
    runIter_terminal a ctx sessionID
      (BuildSystemPrompt a.mode a.workDir a.registry) a.buildToolDefs
      a.maxIterations.toNat history
  refine ⟨pre, last, hsplit, hterm, ?_, hdone, hpre⟩
  unfold Event.isTerminal at hterm
  cases h : last.type <;> rw [h] at hterm <;> simp at hterm
  · exact Or.inl rfl
  · exact Or.inr rfl

/-! ## C3 — the iteration cap -/

/-- The distinguished max-iterations error AgentEvent. -/
def maxIterErrorEvent (a : Agent) : Event :=
  { type := EventType.agentError
    error := some ("agent reached maximum iterations (" ++
      toString a.maxIterations ++ ")") }

/-- If every provider turn completes without a stream error and requests
at least one tool call, the loop performs exactly one provider call per
unit of fuel and ends in the distinguished max-iterations error. -/
theorem runIter_always_tool (a : Agent) (sid sp : String)
    (td : List ToolDefinition)
    (hprov : ∀ req : Request, ∃ s, a.provider req = Except.ok s ∧
        (consumeStream s {}).2.2 = false ∧
        (consumeStream s {}).2.1.toolCalls ≠ []) :
    ∀ (n : Nat) (hist : List Message),
      (a.runIter false sid sp td n hist).providerCalls = n ∧
      ∃ pre last, (a.runIter false sid sp td n hist).events = pre ++ [last] ∧
        last = maxIterErrorEvent a ∧ ∀ e ∈ pre, e.isTerminal = false := by
  intro n
  induction n with
  | zero =>
    intro hist
    exact ⟨rfl, [], _, rfl, rfl, by intro e he; simp at he⟩
  | succ n ih =>
    intro hist
    obtain ⟨s, hs, habort, hcalls⟩ :=
      hprov { systemPrompt := sp, messages := hist, tools := td, maxTokens := a.maxTokens }
    have htool := execToolLoop_no_cancel a (consumeStream s {}).2.1.toolCalls
    simp only [Agent.runIter, Bool.false_eq_true, if_false, hs, habort,
      if_neg hcalls, htool]
    obtain ⟨ihCalls, ihShape⟩ := ih _
    constructor
    · rw [ihCalls]
      omega
    · refine shape_append ihShape ?_
      intro e he
      rcases List.mem_append.mp he with he | he
      · rcases List.mem_append.mp he with he | he
        · rcases List.mem_append.mp he with he | he
          · exact isStreamish_not_terminal e (consumeStream_ok_types s {} habort e he)
          · rcases List.mem_singleton.mp he with rfl
            exact not_terminal_of_persist rfl
        · obtain ⟨tc, _, rfl⟩ := List.mem_map.mp he
          exact not_terminal_of_toolResult rfl
      · rcases List.mem_singleton.mp he with rfl
        exact not_terminal_of_persist rfl

/-- C3: with a configured maximum-iterations value n ≥ 1 and a model that
requests at least one tool call on every turn, `Run` performs exactly n
provider calls and then emits the distinguished max-iterations error as
the sole terminal event; and `New` defaults a configured value ≤ 0 to
25. -/
theorem run_iteration_cap :
    (∀ (cfg : Config) (history : List Message) (sid : String),
        1 ≤ cfg.maxIterations →
        (∀ req : Request, ∃ s, cfg.provider req = Except.ok s ∧
            (consumeStream s {}).2.2 = false ∧
            (consumeStream s {}).2.1.toolCalls ≠ []) →
        ((New cfg).run false history sid).providerCalls = cfg.maxIterations.toNat ∧
        ∃ pre, ((New cfg).run false history sid).events =
            pre ++ [maxIterErrorEvent (New cfg)] ∧
          ∀ e ∈ pre, e.isTerminal = false) ∧
    (∀ cfg : Config, cfg.maxIterations ≤ 0 →
        (New cfg).maxIterations = DefaultMaxIterations) := by
  constructor
  · intro cfg history sid hge hprov
    have hmax : (New cfg).maxIterations = cfg.maxIterations := by
      unfold New
      simp only
      rw [if_neg (by omega)]
    have hprov' : ∀ req : Request, ∃ s, (New cfg).provider req = Except.ok s ∧
        (consumeStream s {}).2.2 = false ∧
        (consumeStream s {}).2.1.toolCalls ≠ [] := hprov
    obtain ⟨hcalls, pre, last, hsplit, hlast, hpre⟩ :=
      runIter_always_tool (New cfg) sid
        (BuildSystemPrompt (New cfg).mode (New cfg).workDir (New cfg).registry)
        (New cfg).buildToolDefs hprov' (New cfg).maxIterations.toNat history
    refine ⟨by rw [Agent.run] at *; rw [hcalls, hmax], pre, ?_, hpre⟩
    rw [Agent.run]
    rw [hsplit, hlast]
  · intro cfg hle
    unfold New
    simp only
    rw [if_pos hle]

/-- A concrete provider stream that requests exactly one tool call. -/
def exCapStream : List StreamEvent :=
  [{ type := StreamEventType.toolCallStart, toolCallID := "c1", toolCallName := "ls" },
   { type := StreamEventType.toolCallEnd, toolCallID := "c1", toolCallInput := "{}" },
   { type := StreamEventType.done }]

/-- A concrete agent configuration whose model always requests a tool
call, capped at one iteration. -/
def exCapCfg : Config :=
  { provider := fun _ => Except.ok exCapStream
    registry := {}
    permSvc := none
    workDir := "/w"
    mode := "build"
    maxTokens := 0
    maxIterations := 1 }

/-- The same configuration with a non-positive iteration setting. -/
def exCapCfg0 : Config := { exCapCfg with maxIterations := 0 }

/-- Witness: the iteration-cap theorem applied at a concrete
configuration with max iterations 1 (and the default at 0). -/
theorem run_iteration_cap_witness :
    ((New exCapCfg).run false [] "s").providerCalls = 1 ∧
    (New exCapCfg0).maxIterations = DefaultMaxIterations := by
  constructor
  · exact (run_iteration_cap.1 exCapCfg [] "s" (by decide)
      (fun req => ⟨exCapStream, rfl, by decide, by decide⟩)).1
  · exact run_iteration_cap.2 exCapCfg0 (by decide)

/-! ## C4 / C5 — per-turn event ordering and tool execution -/

/-- The `persist-intermediate-message` AgentEvent for a message. -/
def persistEvent (m : Message) : Event :=
  { type := EventType.persistMessage, finalMessage := some m }

/-- The assistant message assembled from one consumed provider stream
(`NewAssistantMessage` plus the attached usage counters). -/
def assistantMsgOf (sid : String) (c : StreamAcc) : Message :=
  { NewAssistantMessage sid c.textContent c.toolCalls with
    inputTokens := c.usage.inputTokens
    outputTokens := c.usage.outputTokens
    totalTokens := c.usage.totalTokens }

/-- The aggregated tool-result message for one turn. -/
def toolMsgOf (a : Agent) (sid : String) (c : StreamAcc) : Message :=
  NewToolResultMessage sid (c.toolCalls.map a.executeTool)

/-- One tool-call turn of the loop decomposes as: the re-emitted stream
events, the persist event for the assistant message, one tool-result
event per call (in order), the persist event for the aggregated
tool-result message, then the next turn. -/
theorem runIter_turn_decomp (a : Agent) (sid sp : String)
    (td : List ToolDefinition) (n : Nat) (hist : List Message)
    (s : List StreamEvent)
    (hs : a.provider
      { systemPrompt := sp, messages := hist, tools := td, maxTokens := a.maxTokens } =
      Except.ok s)
    (habort : (consumeStream s {}).2.2 = false)
    (hcalls : (consumeStream s {}).2.1.toolCalls ≠ []) :
    (a.runIter false sid sp td (n + 1) hist).events =
      (consumeStream s {}).1 ++
      [persistEvent (assistantMsgOf sid (consumeStream s {}).2.1)] ++
      ((consumeStream s {}).2.1.toolCalls.map
        (fun tc => toolResultEvent tc (a.executeTool tc))) ++
      [persistEvent (toolMsgOf a sid (consumeStream s {}).2.1)] ++
      (a.runIter false sid sp td n
        ((hist ++ [assistantMsgOf sid (consumeStream s {}).2.1]) ++
          [toolMsgOf a sid (consumeStream s {}).2.1])).events := by
  have htool := execToolLoop_no_cancel a (consumeStream s {}).2.1.toolCalls
  simp only [Agent.runIter, Bool.false_eq_true, if_false, hs, habort,
    if_neg hcalls, htool]
  rfl

/-- `executeTool` on a name absent from the registry. -/
theorem executeTool_unknown (a : Agent) (tc : ToolCall)
    (h : a.registry.get tc.name = none) :
    a.executeTool tc =
      { toolCallID := tc.id, name := tc.name
        output := "Error: unknown tool " ++ squote ++ tc.name ++ squote
        isError := true } := by
  simp only [Agent.executeTool, h]

/-- `executeTool` when the permission gate denies the call. -/
theorem executeTool_denied (a : Agent) (tc : ToolCall) (tool : Tool)
    (check : String → String → Response)
    (hget : a.registry.get tc.name = some tool)
    (hplan : ¬ (a.mode = "plan" ∧ tool.requiresPermission = true))
    (hsvc : a.permSvc = some check)
    (hperm : tool.requiresPermission = true)
    (hdeny : check tc.name tc.input = Response.deny) :
    a.executeTool tc =
      { toolCallID := tc.id, name := tc.name
        output := "Permission denied by user."
        isError := true } := by
  simp only [Agent.executeTool, hget]
  rw [if_neg hplan, hsvc]
  simp only [hperm, hdeny]
  rw [if_pos]
  simp

/-- `executeTool` when the tool runs and fails: the error is converted to
an error-flagged result. -/
theorem executeTool_exec_error (a : Agent) (tc : ToolCall) (tool : Tool)
    (msg : String)
    (hget : a.registry.get tc.name = some tool)
    (hplan : ¬ (a.mode = "plan" ∧ tool.requiresPermission = true))
    (hpass : ∀ check, a.permSvc = some check →
      ¬ (tool.requiresPermission = true ∧ check tc.name tc.input = Response.deny))
    (hexec : tool.execute tc.input = Except.error msg) :
    a.executeTool tc =
      { toolCallID := tc.id, name := tc.name
        output := "Error: " ++ msg
        isError := true } := by
  simp only [Agent.executeTool, hget]
  rw [if_neg hplan]
  have hden : (match a.permSvc with
      | some check => tool.requiresPermission && decide (check tc.name tc.input = Response.deny)
      | none => false) = false := by
    cases hs : a.permSvc with
    | none => rfl
    | some check =>
      have := hpass check hs
      simp only [Bool.and_eq_false_iff]
      by_cases hp : tool.requiresPermission = true
      · right
        simp only [decide_eq_false_iff_not]
        intro hd
        exact this ⟨hp, hd⟩
      · left
        simpa using hp
  rw [hden]
  simp only [Bool.false_eq_true, if_false, hexec]

/-- `executeTool` when the tool runs and succeeds. -/
theorem executeTool_exec_ok (a : Agent) (tc : ToolCall) (tool : Tool)
    (out : String)
    (hget : a.registry.get tc.name = some tool)
    (hplan : ¬ (a.mode = "plan" ∧ tool.requiresPermission = true))
    (hpass : ∀ check, a.permSvc = some check →
      ¬ (tool.requiresPermission = true ∧ check tc.name tc.input = Response.deny))
    (hexec : tool.execute tc.input = Except.ok out) :
    a.executeTool tc =
      { toolCallID := tc.id, name := tc.name, output := out, isError := false } := by
  simp only [Agent.executeTool, hget]
  rw [if_neg hplan]
  have hden : (match a.permSvc with
      | some check => tool.requiresPermission && decide (check tc.name tc.input = Response.deny)
      | none => false) = false := by
    cases hs : a.permSvc with
    | none => rfl
    | some check =>
      have := hpass check hs
      simp only [Bool.and_eq_false_iff]
      by_cases hp : tool.requiresPermission = true
      · right
        simp only [decide_eq_false_iff_not]
        intro hd
        exact this ⟨hp, hd⟩
      · left
        simpa using hp
  rw [hden]
  simp only [Bool.false_eq_true, if_false, hexec]

/-- C4: in every model turn that requests at least one tool call, the
`persist-intermediate-message` event carrying the assistant message comes
after all of the turn's stream events (text deltas and tool-call events),
before every tool-result event (and hence, in the Go channel order,
before any tool execution begins), and all tool-result events of the turn
precede the second persist event carrying the aggregated tool-result
message. -/
theorem turn_persist_ordering (a : Agent) (sid sp : String)
    (td : List ToolDefinition) (n : Nat) (hist : List Message)
    (s : List StreamEvent)
    (hs : a.provider
      { systemPrompt := sp, messages := hist, tools := td, maxTokens := a.maxTokens } =
      Except.ok s)
    (habort : (consumeStream s {}).2.2 = false)
    (hcalls : (consumeStream s {}).2.1.toolCalls ≠ []) :
    ∃ rest,
      (a.runIter false sid sp td (n + 1) hist).events =
        (consumeStream s {}).1 ++
        [persistEvent (assistantMsgOf sid (consumeStream s {}).2.1)] ++
        ((consumeStream s {}).2.1.toolCalls.map
          (fun tc => toolResultEvent tc (a.executeTool tc))) ++
        [persistEvent (toolMsgOf a sid (consumeStream s {}).2.1)] ++ rest ∧
      (∀ e ∈ (consumeStream s {}).1, e.isStreamish) ∧
      (assistantMsgOf sid (consumeStream s {}).2.1).role = Role.assistant ∧
      (assistantMsgOf sid (consumeStream s {}).2.1).toolCalls =
        (consumeStream s {}).2.1.toolCalls ∧
      (toolMsgOf a sid (consumeStream s {}).2.1).role = Role.tool ∧
      ∀ e ∈ ((consumeStream s {}).2.1.toolCalls.map
          (fun tc => toolResultEvent tc (a.executeTool tc))),
        e.type = EventType.toolResult := by
  refine ⟨_, runIter_turn_decomp a sid sp td n hist s hs habort hcalls,
    consumeStream_ok_types s {} habort, rfl, rfl, rfl, ?_⟩
  intro e he
  obtain ⟨tc, _, rfl⟩ := List.mem_map.mp he
  rfl

/-- Witness for `turn_persist_ordering` at a concrete agent and stream. -/
def exToolLs : Tool :=
  { name := "ls", description := "list files", parameters := "{}"
    requiresPermission := false
    execute := fun _ => Except.ok "file.txt" }

def exRegistry : Registry := Registry.register {} exToolLs

def exAgent : Agent :=
  { provider := fun _ => Except.ok exCapStream
    registry := exRegistry
    permSvc := none
    workDir := "/w"
    mode := "build"
    maxTokens := 0
    maxIterations := 2 }

theorem turn_persist_ordering_witness :
    ∃ rest,
      (exAgent.runIter false "s" "p" [] (0 + 1) []).events =
        (consumeStream exCapStream {}).1 ++
        [persistEvent (assistantMsgOf "s" (consumeStream exCapStream {}).2.1)] ++
        ((consumeStream exCapStream {}).2.1.toolCalls.map
          (fun tc => toolResultEvent tc (exAgent.executeTool tc))) ++
        [persistEvent (toolMsgOf exAgent "s" (consumeStream exCapStream {}).2.1)] ++ rest ∧
      (∀ e ∈ (consumeStream exCapStream {}).1, e.isStreamish) ∧
      (assistantMsgOf "s" (consumeStream exCapStream {}).2.1).role = Role.assistant ∧
      (assistantMsgOf "s" (consumeStream exCapStream {}).2.1).toolCalls =
        (consumeStream exCapStream {}).2.1.toolCalls ∧
      (toolMsgOf exAgent "s" (consumeStream exCapStream {}).2.1).role = Role.tool ∧
      ∀ e ∈ ((consumeStream exCapStream {}).2.1.toolCalls.map
          (fun tc => toolResultEvent tc (exAgent.executeTool tc))),
        e.type = EventType.toolResult :=
  turn_persist_ordering exAgent "s" "p" [] 0 [] exCapStream rfl (by decide) (by decide)

/-- C5: in a turn with N ≥ 1 requested calls and no cancellation, the
agent executes the calls strictly sequentially in the order received,
emits exactly one tool-result AgentEvent per call (the i-th event carries
the i-th call's id, name, and result), and then continues the loop with
the next provider turn regardless of error flags; an unknown tool name, a
permission denial (with its fixed message), and a tool execution error
are each converted into an error-flagged ToolResult rather than
terminating the loop. -/
theorem tool_results_per_call :
    (∀ (a : Agent) (sid sp : String) (td : List ToolDefinition) (n : Nat)
        (hist : List Message) (s : List StreamEvent),
      a.provider
        { systemPrompt := sp, messages := hist, tools := td, maxTokens := a.maxTokens } =
        Except.ok s →
      (consumeStream s {}).2.2 = false →
      (consumeStream s {}).2.1.toolCalls ≠ [] →
      (a.runIter false sid sp td (n + 1) hist).events =
        (consumeStream s {}).1 ++
        [persistEvent (assistantMsgOf sid (consumeStream s {}).2.1)] ++
        ((consumeStream s {}).2.1.toolCalls.map
          (fun tc => toolResultEvent tc (a.executeTool tc))) ++
        [persistEvent (toolMsgOf a sid (consumeStream s {}).2.1)] ++
        (a.runIter false sid sp td n
          ((hist ++ [assistantMsgOf sid (consumeStream s {}).2.1]) ++
            [toolMsgOf a sid (consumeStream s {}).2.1])).events ∧
      (toolMsgOf a sid (consumeStream s {}).2.1).toolResults =
        (consumeStream s {}).2.1.toolCalls.map a.executeTool) ∧
    (∀ (a : Agent) (tc : ToolCall), a.registry.get tc.name = none →
      a.executeTool tc =
        { toolCallID := tc.id, name := tc.name
          output := "Error: unknown tool " ++ squote ++ tc.name ++ squote
          isError := true }) ∧
    (∀ (a : Agent) (tc : ToolCall) (tool : Tool) (check : String → String → Response),
      a.registry.get tc.name = some tool →
      ¬ (a.mode = "plan" ∧ tool.requiresPermission = true) →
      a.permSvc = some check →
      tool.requiresPermission = true →
      check tc.name tc.input = Response.deny →
      a.executeTool tc =
        { toolCallID := tc.id, name := tc.name
          output := "Permission denied by user."
          isError := true }) ∧
    (∀ (a : Agent) (tc : ToolCall) (tool : Tool) (msg : String),
      a.registry.get tc.name = some tool →
      ¬ (a.mode = "plan" ∧ tool.requiresPermission = true) →
      (∀ check, a.permSvc = some check →
        ¬ (tool.requiresPermission = true ∧ check tc.name tc.input = Response.deny)) →
      tool.execute tc.input = Except.error msg →
      a.executeTool tc =
        { toolCallID := tc.id, name := tc.name
          output := "Error: " ++ msg
          isError := true }) := by
  refine ⟨?_, executeTool_unknown, executeTool_denied, executeTool_exec_error⟩
  intro a sid sp td n hist s hs habort hcalls
  exact ⟨runIter_turn_decomp a sid sp td n hist s hs habort hcalls, rfl⟩

/-- Tools used to exercise the denial and execution-error conversions. -/
def exToolRm : Tool :=
  { name := "rm", description := "remove", parameters := "{}"
    requiresPermission := true
    execute := fun _ => Except.ok "removed" }

def exToolBad : Tool :=
  { name := "bad", description := "always fails", parameters := "{}"
    requiresPermission := false
    execute := fun _ => Except.error "boom" }

def exDenyAgent : Agent :=
  { provider := fun _ => Except.ok []
    registry := Registry.register (Registry.register {} exToolRm) exToolBad
    permSvc := some (fun _ _ => Response.deny)
    workDir := "/w"
    mode := "build"
    maxTokens := 0
    maxIterations := 1 }

theorem tool_results_per_call_witness :
    ((exAgent.runIter false "s" "p" [] (0 + 1) []).events =
        (consumeStream exCapStream {}).1 ++
        [persistEvent (assistantMsgOf "s" (consumeStream exCapStream {}).2.1)] ++
        ((consumeStream exCapStream {}).2.1.toolCalls.map
          (fun tc => toolResultEvent tc (exAgent.executeTool tc))) ++
        [persistEvent (toolMsgOf exAgent "s" (consumeStream exCapStream {}).2.1)] ++
        (exAgent.runIter false "s" "p" [] 0
          (([] ++ [assistantMsgOf "s" (consumeStream exCapStream {}).2.1]) ++
            [toolMsgOf exAgent "s" (consumeStream exCapStream {}).2.1])).events ∧
      (toolMsgOf exAgent "s" (consumeStream exCapStream {}).2.1).toolResults =
        (consumeStream exCapStream {}).2.1.toolCalls.map exAgent.executeTool) ∧
    exDenyAgent.executeTool { id := "c8", name := "nosuch", input := "{}" } =
      { toolCallID := "c8", name := "nosuch"
        output := "Error: unknown tool " ++ squote ++ "nosuch" ++ squote
        isError := true } ∧
    exDenyAgent.executeTool { id := "c9", name := "rm", input := "{}" } =
      { toolCallID := "c9", name := "rm"
        output := "Permission denied by user."
        isError := true } ∧
    exDenyAgent.executeTool { id := "c10", name := "bad", input := "{}" } =
      { toolCallID := "c10", name := "bad"
        output := "Error: " ++ "boom"
        isError := true } := by
  refine ⟨tool_results_per_call.1 exAgent "s" "p" [] 0 [] exCapStream rfl
      (by decide) (by decide),
    tool_results_per_call.2.1 exDenyAgent { id := "c8", name := "nosuch", input := "{}" }
      rfl,
    tool_results_per_call.2.2.1 exDenyAgent { id := "c9", name := "rm", input := "{}" }
      exToolRm (fun _ _ => Response.deny) rfl (by decide) rfl rfl rfl,
    tool_results_per_call.2.2.2 exDenyAgent { id := "c10", name := "bad", input := "{}" }
      exToolBad "boom" rfl (by decide) ?_ rfl⟩
  intro check hc h
  exact absurd h.1 (by decide)

/-! ## C8 — the mode gate -/

/-- C8: in plan (read-only) mode every permission-requiring tool is
omitted from the declarations sent to the model (exactly the
non-permission tools are declared) and any attempt to execute one by name
returns the fixed "not available in PLAN mode" error-flagged result
without running the tool; outside plan mode every tool is declared and a
permission-requiring tool is routed through the permission gate — a
denial yields the fixed denial result without execution, and a pass runs
the tool. -/
theorem mode_gate :
    (∀ a : Agent, a.mode = "plan" →
      a.buildToolDefs =
        (a.registry.all.filter (fun t => t.requiresPermission = false)).map
          (fun t =>
            { name := t.name, description := t.description
              parameters := t.parameters })) ∧
    (∀ (a : Agent) (tc : ToolCall) (tool : Tool),
      a.mode = "plan" → a.registry.get tc.name = some tool →
      tool.requiresPermission = true →
      a.executeTool tc =
        { toolCallID := tc.id, name := tc.name
          output := "Error: tool " ++ squote ++ tc.name ++ squote ++
            " is not available in PLAN mode. Switch to BUILD mode to use this tool."
          isError := true }) ∧
    (∀ a : Agent, a.mode ≠ "plan" →
      a.buildToolDefs =
        a.registry.all.map
          (fun t =>
            { name := t.name, description := t.description
              parameters := t.parameters })) ∧
    (∀ (a : Agent) (tc : ToolCall) (tool : Tool) (check : String → String → Response),
      a.mode ≠ "plan" → a.registry.get tc.name = some tool →
      tool.requiresPermission = true → a.permSvc = some check →
      (check tc.name tc.input = Response.deny →
        a.executeTool tc =
          { toolCallID := tc.id, name := tc.name
            output := "Permission denied by user."
            isError := true }) ∧
      (∀ out, check tc.name tc.input ≠ Response.deny →
        tool.execute tc.input = Except.ok out →
        a.executeTool tc =
          { toolCallID := tc.id, name := tc.name, output := out, isError := false })) := by
  refine ⟨?_, ?_, ?_, ?_⟩
  · intro a hmode
    unfold Agent.buildToolDefs
    rw [hmode]
    congr 1
    apply List.filter_congr
    intro t _
    cases h : t.requiresPermission <;> simp [h]
  · intro a tc tool hmode hget hperm
    simp only [Agent.executeTool, hget]
    rw [if_pos ⟨hmode, hperm⟩]
  · intro a hmode
    unfold Agent.buildToolDefs
    congr 1
    apply List.filter_eq_self.mpr
    intro t _
    simp [hmode]
  · intro a tc tool check hmode hget hperm hsvc
    constructor
    · intro hdeny
      exact executeTool_denied a tc tool check hget (fun h => hmode h.1) hsvc hperm hdeny
    · intro out hnd hexec
      refine executeTool_exec_ok a tc tool out hget (fun h => hmode h.1) ?_ hexec
      intro check2 hc h
      rw [hsvc] at hc
      exact hnd ((Option.some.inj hc) ▸ h.2)

/-- A plan-mode agent and a build-mode allow-all agent for the witness. -/
def exPlanAgent : Agent := { exDenyAgent with mode := "plan" }

def exAllowAgent : Agent :=
  { exDenyAgent with permSvc := some (fun _ _ => Response.allow) }

theorem mode_gate_witness :
    exPlanAgent.buildToolDefs =
      (exPlanAgent.registry.all.filter (fun t => t.requiresPermission = false)).map
        (fun t =>
          { name := t.name, description := t.description
            parameters := t.parameters }) ∧
    exPlanAgent.executeTool { id := "c1", name := "rm", input := "{}" } =
      { toolCallID := "c1", name := "rm"
        output := "Error: tool " ++ squote ++ "rm" ++ squote ++
          " is not available in PLAN mode. Switch to BUILD mode to use this tool."
        isError := true } ∧
    exDenyAgent.buildToolDefs =
      exDenyAgent.registry.all.map
        (fun t =>
          { name := t.name, description := t.description
            parameters := t.parameters }) ∧
    exDenyAgent.executeTool { id := "c2", name := "rm", input := "{}" } =
      { toolCallID := "c2", name := "rm"
        output := "Permission denied by user."
        isError := true } ∧
    exAllowAgent.executeTool { id := "c3", name := "rm", input := "{}" } =
      { toolCallID := "c3", name := "rm", output := "removed", isError := false } := by
  refine ⟨mode_gate.1 exPlanAgent rfl,
    mode_gate.2.1 exPlanAgent { id := "c1", name := "rm", input := "{}" } exToolRm
      rfl rfl rfl,
    mode_gate.2.2.1 exDenyAgent (by decide),
    (mode_gate.2.2.2 exDenyAgent { id := "c2", name := "rm", input := "{}" } exToolRm
      (fun _ _ => Response.deny) (by decide) rfl rfl rfl).1 rfl,
    (mode_gate.2.2.2 exAllowAgent { id := "c3", name := "rm", input := "{}" } exToolRm
      (fun _ _ => Response.allow) (by decide) rfl rfl rfl).2 "removed" (by decide) rfl⟩

/-! ## C10 — channel closure, not a done event, ends the turn -/

/-- A stream with no error events never aborts the consumption loop. -/
theorem consumeStream_no_error_no_abort :
    ∀ (s : List StreamEvent) (acc : StreamAcc),
      (∀ e ∈ s, e.type ≠ StreamEventType.error) →
      (consumeStream s acc).2.2 = false := by
  intro s
  induction s with
  | nil =>
    intro acc _
    rfl
  | cons x rest ih =>
    obtain ⟨xt, xtext, xid, xname, xinput, xerr, xusage⟩ := x
    intro acc hne
    have hrest : ∀ e ∈ rest, e.type ≠ StreamEventType.error := by
      intro e he
      exact hne e (List.mem_cons_of_mem _ he)
    cases xt
    case error =>
      exact absurd rfl (hne _ (List.mem_cons_self _ _))
    case textDelta => exact ih _ hrest
    case toolCallStart => exact ih _ hrest
    case toolCallDelta =>
      cases hg : alGet acc.pendingCalls xid with
      | some pending =>
        simp only [consumeStream, hg]
        exact ih _ hrest
      | none =>
        simp only [consumeStream, hg]
        exact ih _ hrest
    case toolCallEnd =>
      cases hg : alGet acc.pendingCalls xid with
      | some pending =>
        simp only [consumeStream, hg]
        exact ih _ hrest
      | none =>
        simp only [consumeStream, hg]
        exact ih _ hrest
    case done => exact ih _ hrest

/-- C10: the agent treats closure of the provider's event channel, not a
`done` StreamEvent, as the end of a model turn — for a stream that
delivers no terminal event at all (in particular the empty stream), the
turn still completes: the assistant message is assembled from the
accumulated text and finalized calls, and with no recorded calls the run
emits a `done` AgentEvent (whose content may be empty) instead of
blocking or failing. -/
theorem channel_close_ends_turn (a : Agent) (sid sp : String)
    (td : List ToolDefinition) (n : Nat) (hist : List Message)
    (s : List StreamEvent)
    (hs : a.provider
      { systemPrompt := sp, messages := hist, tools := td, maxTokens := a.maxTokens } =
      Except.ok s)
    (hterm : ∀ e ∈ s, e.type ≠ StreamEventType.done ∧ e.type ≠ StreamEventType.error)
    (hcalls : (consumeStream s {}).2.1.toolCalls = []) :
    (a.runIter false sid sp td (n + 1) hist).events =
      (consumeStream s {}).1 ++
      [{ type := EventType.agentDone
         finalMessage := some (assistantMsgOf sid (consumeStream s {}).2.1) }] ∧
    (assistantMsgOf sid (consumeStream s {}).2.1).content =
      (consumeStream s {}).2.1.textContent ∧
    (assistantMsgOf sid (consumeStream s {}).2.1).role = Role.assistant := by
  have habort := consumeStream_no_error_no_abort s {} (fun e he => (hterm e he).2)
  refine ⟨?_, rfl, rfl⟩
  simp only [Agent.runIter, Bool.false_eq_true, if_false, hs, habort, if_pos hcalls]
  rfl

theorem channel_close_ends_turn_witness :
    (exDenyAgent.runIter false "s" "p" [] (0 + 1) []).events =
      [{ type := EventType.agentDone
         finalMessage :=
           some (assistantMsgOf "s" (consumeStream ([] : List StreamEvent) {}).2.1) }] ∧
    (assistantMsgOf "s" (consumeStream ([] : List StreamEvent) {}).2.1).content = "" := by
  obtain ⟨h1, h2, _⟩ := channel_close_ends_turn exDenyAgent "s" "p" [] 0 [] []
    rfl (by intro e he; simp at he) (by decide)
  exact ⟨h1, h2⟩

/-! ## C9 — permission gate under cancellation

`Check` does not test `ctx.Err()` before its first `select`: it races
`s.requestCh <- req` (a channel buffered with capacity 1) against
`<-ctx.Done()`.  When the context is already cancelled and the buffer has
room, both branches are ready and Go chooses pseudo-randomly, so `Check`
may publish the request even though the context was already cancelled.
What does hold: any select resolved by the cancellation branch yields
`Deny`, `Allow` arises only from the allowlist or a real
allow/allow-for-session response, and a cancelled context always offers a
ready branch (no blocked waiter). -/

/-- A run of `Check` in which the context is already cancelled but the
select picks the ready send branch. -/
def exCancelledEnv : CheckEnv :=
  { ctxCancelled := true
    sendReady := true
    first := SelectBranch.send
    second := RecvBranch.ctxDone }

/-- Counterexample to C9 as stated: with the calling context already
cancelled (and the buffered request channel empty, hence the send branch
ready — a valid resolution of Go's pseudo-random select), `Check`
publishes the PermissionRequest before returning Deny, refuting "returns
Deny and never publishes a PermissionRequest on the request channel". -/
theorem check_cancelled_can_publish :
    exCancelledEnv.ctxCancelled = true ∧
    exCancelledEnv.valid ∧
    (PermService.check { sessionAllowed := [] } exCancelledEnv "bash" "ls").published
      = true := by
  refine ⟨rfl, by decide, rfl⟩

/-- C9 (amended): for a tool that is not session-allowlisted, whenever a
`ctx.Done()` branch resolves a select the outcome is Deny — without a
publish when cancellation wins the first select, after the (buffered)
publish when it wins the second — `Allow` can only come from the
allowlist or from an actual Allow / AllowForSession response, and a
cancelled context always has a ready branch at both selects, so `Check`
never blocks forever. -/
theorem check_cancellation_denies :
    ∀ (s : PermService) (env : CheckEnv) (toolName input : String),
      env.valid →
      ((toolName ∉ s.sessionAllowed → env.first = SelectBranch.ctxDone →
        PermService.check s env toolName input =
          { response := Response.deny, published := false, svc := s }) ∧
      (toolName ∉ s.sessionAllowed → env.first = SelectBranch.send →
        env.second = RecvBranch.ctxDone →
        PermService.check s env toolName input =
          { response := Response.deny, published := true, svc := s }) ∧
      ((PermService.check s env toolName input).response = Response.allow →
        toolName ∈ s.sessionAllowed ∨
        env.second = RecvBranch.received Response.allow ∨
        env.second = RecvBranch.received Response.allowForSession) ∧
      (env.ctxCancelled = true →
        (CheckEnv.mk true env.sendReady SelectBranch.ctxDone RecvBranch.ctxDone).valid)) := by
  intro s env toolName input _hvalid
  refine ⟨?_, ?_, ?_, ?_⟩
  · intro hnotallowed hfirst
    unfold PermService.check
    rw [if_neg hnotallowed, hfirst]
  · intro hnotallowed hfirst hsecond
    unfold PermService.check
    rw [if_neg hnotallowed, hfirst, hsecond]
  · intro hallow
    by_cases hmem : toolName ∈ s.sessionAllowed
    · exact Or.inl hmem
    · unfold PermService.check at hallow
      rw [if_neg hmem] at hallow
      cases hfirst : env.first with
      | ctxDone =>
        rw [hfirst] at hallow
        simp at hallow
      | send =>
        rw [hfirst] at hallow
        cases hsecond : env.second with
        | ctxDone =>
          rw [hsecond] at hallow
          simp at hallow
        | received r =>
          rw [hsecond] at hallow
          by_cases hr : r = Response.allowForSession
          · exact Or.inr (Or.inr (hr ▸ rfl))
          · simp [hr] at hallow
            exact Or.inr (Or.inl (by rw [hallow]))
  · intro _
    simp only [CheckEnv.valid]
    refine ⟨?_, ?_, ?_⟩
    · intro h
      exact nomatch h
    · intro _
      trivial
    · intro _
      trivial

/-- Witness: the amended theorem applied at a concrete cancelled
environment in which both selects resolve to the cancellation branch. -/
theorem check_cancellation_denies_witness :
    PermService.check { sessionAllowed := [] }
      { ctxCancelled := true, sendReady := false
        first := SelectBranch.ctxDone, second := RecvBranch.ctxDone } "bash" "ls" =
      { response := Response.deny, published := false
        svc := { sessionAllowed := [] } } :=
  (check_cancellation_denies { sessionAllowed := [] }
    { ctxCancelled := true, sendReady := false
      first := SelectBranch.ctxDone, second := RecvBranch.ctxDone } "bash" "ls"
    (by decide)).1 (by decide) rfl

/-! ## C2 — flush of open tool calls

The `response.completed` handler flushes every still-open started call,
but the fall-through path taken when the wire stream ends **without** a
completion signal (part_000 line 491) emits the trailing done without any
flush: an open call is silently dropped there.  The claim is therefore
amended to flush-on-explicit-completion. -/

/-- A wire line that starts a function call (id and name known) and is
never completed. -/
def exOpenCallLine : WireLine :=
  WireLine.data
    { type := "response.output_item.added"
      item := some
        { id := "item_1", type := "function_call", callID := "call_1", name := "ls" } }

/-- Counterexample to C2 as stated: the wire stream ends (without a
completion signal) right after a tool call was started; the adapter emits
the terminal done but no `tool-call-end` for the open call — it is
silently dropped. -/
theorem stream_end_drops_open_call :
    processStream false [exOpenCallLine] [] none =
      [{ type := StreamEventType.toolCallStart
         toolCallID := "call_1", toolCallName := "ls" },
       { type := StreamEventType.done }] ∧
    ∀ e ∈ processStream false [exOpenCallLine] [] none,
      e.type ≠ StreamEventType.toolCallEnd := by
  refine ⟨by decide, by decide⟩

/-- C2 (amended): when the stream terminates by the explicit completion
signal (`response.completed`), every call that was started (its
tool-call-start was emitted) and not yet ended is finalized with a
tool-call-end carrying its accumulated argument text, all of them before
the single terminal done event; when the wire stream ends without a
completion signal a terminal done is still emitted, but open calls are
not flushed. -/
theorem flush_on_completed :
    ∀ (evt : RespStreamEvent) (rest : List WireLine)
      (fcs : List (String × FuncCallState)) (scanErr : Option String),
      evt.type = "response.completed" →
      processStream false (WireLine.data evt :: rest) fcs scanErr =
        flushFuncCalls fcs ++ [{ type := StreamEventType.done }] ∧
      (∀ p ∈ fcs, p.2.started = true →
        { type := StreamEventType.toolCallEnd
          toolCallID := p.2.id
          toolCallName := p.2.name
          toolCallInput := p.2.arguments } ∈ flushFuncCalls fcs) ∧
      ∀ e ∈ flushFuncCalls fcs, e.type = StreamEventType.toolCallEnd := by
  intro evt rest fcs scanErr htype
  refine ⟨?_, ?_, ?_⟩
  · simp [processStream, htype]
  · intro p hp hstarted
    unfold flushFuncCalls
    exact List.mem_map.mpr
      ⟨p, List.mem_filter.mpr ⟨hp, by simp [hstarted]⟩, rfl⟩
  · intro e he
    unfold flushFuncCalls at he
    obtain ⟨p, _, rfl⟩ := List.mem_map.mp he
    rfl

/-- Witness: the flush theorem at a concrete completion line with one
started open call. -/
theorem flush_on_completed_witness :
    processStream false
        [WireLine.data { type := "response.completed" }]
        [("item_1", { id := "call_1", name := "ls", arguments := "{}", started := true })]
        none =
      flushFuncCalls
        [("item_1", { id := "call_1", name := "ls", arguments := "{}", started := true })] ++
      [{ type := StreamEventType.done }] ∧
    ({ type := StreamEventType.toolCallEnd
       toolCallID := "call_1", toolCallName := "ls"
       toolCallInput := "{}" } : StreamEvent) ∈
      flushFuncCalls
        [("item_1", { id := "call_1", name := "ls", arguments := "{}", started := true })] := by
  obtain ⟨h1, h2, _⟩ := flush_on_completed { type := "response.completed" } []
    [("item_1", { id := "call_1", name := "ls", arguments := "{}", started := true })]
    none rfl
  exact ⟨h1, h2 _ (List.mem_singleton.mpr rfl) rfl⟩

/-! ## C6 — the terminal done event carries reported usage or zero -/

/-- The spec's concrete scenario: text deltas "Hello", " world", then a
normal completion whose payload reports usage in 10 / out 5 / total 15. -/
def exUsageLines : List WireLine :=
  [WireLine.data { type := "response.output_text.delta", delta := "Hello" },
   WireLine.data { type := "response.output_text.delta", delta := " world" },
   WireLine.data { type := "response.completed" }]

def exUsage : Usage := { inputTokens := 10, outputTokens := 5, totalTokens := 15 }

/-- The adapter output for the scenario, with the spec-modelled usage
attachment (see `attachReportedUsage`). -/
def exUsageStream : List StreamEvent :=
  attachReportedUsage (some exUsage) (processStream false exUsageLines [] none)

def exUsageAgent : Agent :=
  { provider := fun _ => Except.ok exUsageStream
    registry := {}
    permSvc := none
    workDir := "/w"
    mode := "build"
    maxTokens := 0
    maxIterations := 1 }

/-- The assistant message the agent assembles in the scenario. -/
def exUsageMsg : Message :=
  { sessionID := "sess", role := Role.assistant, content := "Hello world"
    inputTokens := 10, outputTokens := 5, totalTokens := 15 }

/-- C6: for every stream that completes normally (the adapter's output is
some non-terminal prefix followed by the terminal done), the done event
is unique and carries the provider-reported token-usage totals, or zero
when the provider reported none; concretely, the "Hello"/" world" stream
with usage {in 10, out 5, total 15} produces exactly
`stream-text("Hello")`, `stream-text(" world")`,
`done(message{content = "Hello world", tokens = 15})`. -/
theorem done_carries_reported_usage :
    (∀ (lines : List WireLine) (fcs : List (String × FuncCallState))
        (scanErr : Option String) (reported : Option Usage) (pre : List StreamEvent),
      processStream false lines fcs scanErr =
        pre ++ [{ type := StreamEventType.done }] →
      (∀ e ∈ pre, e.type ≠ StreamEventType.done) →
      attachReportedUsage reported (processStream false lines fcs scanErr) =
        pre ++ [{ type := StreamEventType.done
                  usage := match reported with | some u => u | none => {} }] ∧
      ((attachReportedUsage reported (processStream false lines fcs scanErr)).filter
          (fun e => e.type = StreamEventType.done)).length = 1) ∧
    exUsageStream =
      [{ type := StreamEventType.textDelta, text := "Hello" },
       { type := StreamEventType.textDelta, text := " world" },
       { type := StreamEventType.done, usage := exUsage }] ∧
    (exUsageAgent.run false [] "sess").events =
      [{ type := EventType.streamText, text := "Hello" },
       { type := EventType.streamText, text := " world" },
       { type := EventType.agentDone, finalMessage := some exUsageMsg }] ∧
    exUsageMsg.totalTokens = 15 := by
  refine ⟨?_, by decide, by decide, rfl⟩
  intro lines fcs scanErr reported pre hshape hpre
  rw [hshape]
  constructor
  · unfold attachReportedUsage
    rw [List.map_append]
    have hfix : pre.map (fun e =>
        if e.type = StreamEventType.done then
          { e with usage := match reported with | some u => u | none => {} }
        else e) = pre := by
      conv_rhs => rw [show pre = pre.map id from (List.map_id pre).symm]
      apply List.map_congr_left
      intro e he
      rw [if_neg (hpre e he)]
      rfl
    rw [hfix]
    rfl
  · unfold attachReportedUsage
    rw [List.map_append, List.filter_append]
    have hpreClean : ((pre.map (fun e =>
        if e.type = StreamEventType.done then
          { e with usage := match reported with | some u => u | none => {} }
        else e)).filter (fun e => e.type = StreamEventType.done)) = [] := by
      apply List.filter_eq_nil_iff.mpr
      intro e he
      obtain ⟨e0, he0, rfl⟩ := List.mem_map.mp he
      rw [if_neg (hpre e0 he0)]
      simp [hpre e0 he0]
    rw [hpreClean]
    rfl

/-- Witness: the general part of `done_carries_reported_usage` applied to
the concrete scenario stream. -/
theorem done_carries_reported_usage_witness :
    attachReportedUsage (some exUsage) (processStream false exUsageLines [] none) =
      [{ type := StreamEventType.textDelta, text := "Hello" },
       { type := StreamEventType.textDelta, text := " world" }] ++
      [{ type := StreamEventType.done, usage := exUsage }] :=
  ((done_carries_reported_usage.1 exUsageLines [] none (some exUsage)
    [{ type := StreamEventType.textDelta, text := "Hello" },
     { type := StreamEventType.textDelta, text := " world" }]
    (by decide) (by decide)).1)

/-! ## C7 — tool-call start/end pairing in the agent -/

/-- The distinct call ids observed among tool-call StreamEvents. -/
def observedCallIds (s : List StreamEvent) : List String :=
  ((s.filter (fun e =>
      e.type = StreamEventType.toolCallStart ∨
      e.type = StreamEventType.toolCallDelta ∨
      e.type = StreamEventType.toolCallEnd)).map
    (fun e => e.toolCallID)).dedup

/-- A stream that mentions call id "x" only through a delta (no start). -/
def exOrphanStream : List StreamEvent :=
  [{ type := StreamEventType.toolCallDelta, toolCallID := "x", toolCallInput := "{}" }]

/-- Counterexample to C7 as stated: a stream in which call id "x" is
observed (via a tool-call-delta that never had a start) but the agent
emits zero tool-call-start and tool-call-end events, so the number of
pairs (0) differs from the number of distinct observed ids (1). -/
theorem orphan_delta_no_pair :
    observedCallIds exOrphanStream = ["x"] ∧
    ((consumeStream exOrphanStream {}).1.filter
      (fun e => e.type = EventType.toolCallStart ∨
        e.type = EventType.toolCallEnd)).length = 0 ∧
    ((consumeStream exOrphanStream {}).1.filter
      (fun e => e.type = EventType.toolCallStart ∨
        e.type = EventType.toolCallEnd)).length ≠
      (observedCallIds exOrphanStream).length := by
  refine ⟨by decide, by decide, by decide⟩

/-- Every member of an `alInsert` is the inserted pair or an original
member. -/
theorem mem_alInsert {α : Type} {m : List (String × α)} {k : String} {v : α}
    {kp : String × α} (h : kp ∈ alInsert m k v) : kp = (k, v) ∨ kp ∈ m := by
  rcases List.mem_cons.mp h with h | h
  · exact Or.inl h
  · exact Or.inr (List.mem_of_mem_filter h)

/-- Every member of an `alErase` is an original member. -/
theorem mem_alErase {α : Type} {m : List (String × α)} {k : String}
    {kp : String × α} (h : kp ∈ alErase m k) : kp ∈ m :=
  List.mem_of_mem_filter h

/-- "Every tool-call-end is preceded by a start for the same id", phrased
recursively: `started` collects the ids whose start events have been
seen. -/
def endsOk : List Event → List String → Prop
  | [], _ => True
  | e :: rest, started =>
    (e.type = EventType.toolCallEnd → e.toolCallID ∈ started) ∧
    endsOk rest
      (if e.type = EventType.toolCallStart then e.toolCallID :: started else started)

/-- `endsOk` implies the positional form: any end event in the list has
an earlier start event with the same call id (or its id was in the
initial `started` set). -/
theorem endsOk_spec :
    ∀ (l : List Event) (started : List String), endsOk l started →
      ∀ (u : List Event) (e : Event) (v : List Event),
        l = u ++ e :: v → e.type = EventType.toolCallEnd →
        e.toolCallID ∈ started ∨
        ∃ e2 ∈ u, e2.type = EventType.toolCallStart ∧ e2.toolCallID = e.toolCallID := by
  intro l
  induction l with
  | nil =>
    intro started _ u e v hdec _
    cases u <;> simp at hdec
  | cons hd tl ih =>
    intro started h u e v hdec hend
    cases u with
    | nil =>
      simp only [List.nil_append, List.cons.injEq] at hdec
      obtain ⟨rfl, rfl⟩ := hdec
      exact Or.inl (h.1 hend)
    | cons hd2 u2 =>
      simp only [List.cons_append, List.cons.injEq] at hdec
      obtain ⟨rfl, htl⟩ := hdec
      rcases ih _ h.2 u2 e v htl hend with hmem | ⟨e2, he2, ht2, hid2⟩
      · by_cases hh : hd.type = EventType.toolCallStart
        · rw [if_pos hh] at hmem
          rcases List.mem_cons.mp hmem with heq | hmem
          · exact Or.inr ⟨hd, List.mem_cons_self _ _, hh, heq.symm⟩
          · exact Or.inl hmem
        · rw [if_neg hh] at hmem
          exact Or.inl hmem
      · exact Or.inr ⟨e2, List.mem_cons_of_mem _ he2, ht2, hid2⟩

/-- Prepending an end event whose id is already started preserves
`endsOk`. -/
theorem endsOk_cons_end {e : Event} {rest : List Event} {started : List String}
    (htype : e.type = EventType.toolCallEnd)
    (hid : e.toolCallID ∈ started)
    (hrest : endsOk rest started) :
    endsOk (e :: rest) started := by
  refine ⟨(fun _ => hid), ?_⟩
  have hns : ¬ (e.type = EventType.toolCallStart) := by
    rw [htype]
    intro h
    exact nomatch h
  rw [if_neg hns]
  exact hrest

/-- A successful `alGet` exhibits a member of the list. -/
theorem alGet_mem {α : Type} {m : List (String × α)} {k : String} {v : α}
    (h : alGet m k = some v) : (k, v) ∈ m := by
  unfold alGet at h
  obtain ⟨p, hfind, hv⟩ := Option.map_eq_some'.mp h
  have hp : p.1 = k := by simpa using List.find?_some hfind
  have hmem := List.mem_of_find?_eq_some hfind
  obtain ⟨p1, p2⟩ := p
  simp only at hp hv
  subst hp
  subst hv
  exact hmem

/-- The agent's stream consumption satisfies `endsOk`: ends are only
emitted for pending entries, and entries only enter the pending map via a
start event. -/
theorem consume_endsOk :
    ∀ (s : List StreamEvent) (acc : StreamAcc) (started : List String),
      (∀ kp ∈ acc.pendingCalls, kp.2.id = kp.1 ∧ kp.1 ∈ started) →
      endsOk (consumeStream s acc).1 started := by
  intro s
  induction s with
  | nil =>
    intro acc started _
    simp only [consumeStream, endsOk]
  | cons x rest ih =>
    obtain ⟨xt, xtext, xid, xname, xinput, xerr, xusage⟩ := x
    intro acc started hinv
    cases xt
    case textDelta =>
      simp only [consumeStream, endsOk]
      refine ⟨(fun h => nomatch h), ?_⟩
      rw [if_neg (fun h => nomatch h)]
      exact ih _ _ hinv
    case toolCallStart =>
      simp only [consumeStream, endsOk]
      refine ⟨(fun h => nomatch h), ?_⟩
      simp only [if_true]
      apply ih
      intro kp hkp
      rcases mem_alInsert hkp with rfl | hkp
      · exact ⟨rfl, List.mem_cons_self _ _⟩
      · obtain ⟨h1, h2⟩ := hinv kp hkp
        exact ⟨h1, List.mem_cons_of_mem _ h2⟩
    case toolCallDelta =>
      cases hg : alGet acc.pendingCalls xid with
      | some pending =>
        simp only [consumeStream, hg]
        apply ih
        intro kp hkp
        rcases mem_alInsert hkp with rfl | hkp
        · obtain ⟨h1, h2⟩ := hinv (xid, pending) (alGet_mem hg)
          exact ⟨h1, h2⟩
        · exact hinv kp hkp
      | none =>
        simp only [consumeStream, hg]
        exact ih _ _ hinv
    case toolCallEnd =>
      cases hg : alGet acc.pendingCalls xid with
      | some pending =>
        simp only [consumeStream, hg]
        obtain ⟨h1, h2⟩ := hinv (xid, pending) (alGet_mem hg)
        apply endsOk_cons_end rfl
        · show pending.id ∈ started
          rw [h1]
          exact h2
        · apply ih
          intro kp hkp
          exact hinv kp (mem_alErase hkp)
      | none =>
        simp only [consumeStream, hg]
        exact ih _ _ hinv
    case error =>
      simp only [consumeStream, endsOk]
      exact ⟨(fun h => nomatch h), trivial⟩
    case done =>
      simp only [consumeStream]
      exact ih _ _ hinv

/-- The tool-call StreamEvents of the stream that carry the given call
id (the per-id projection of the stream). -/
def streamCallEvents (id : String) : List StreamEvent → List StreamEvent
  | [] => []
  | e :: l =>
    if (e.type = StreamEventType.toolCallStart ∨
        e.type = StreamEventType.toolCallDelta ∨
        e.type = StreamEventType.toolCallEnd) ∧ e.toolCallID = id then
      e :: streamCallEvents id l
    else
      streamCallEvents id l

/-- The tool-call-start / tool-call-end AgentEvents carrying the given
call id (the per-id projection of the agent's output). -/
def agentCallEvents (id : String) : List Event → List Event
  | [] => []
  | e :: l =>
    if (e.type = EventType.toolCallStart ∨ e.type = EventType.toolCallEnd) ∧
        e.toolCallID = id then
      e :: agentCallEvents id l
    else
      agentCallEvents id l

/-- The agent's per-id accumulation behaviour in isolation: how
`consumeStream` treats the events of one call id, given that id's pending
entry. -/
def consumeToolOnly : List StreamEvent → Option PendingToolCall → List Event
  | [], _ => []
  | e :: rest, st =>
    match e.type with
    | StreamEventType.toolCallStart =>
      { type := EventType.toolCallStart
        toolCallID := e.toolCallID
        toolCallName := e.toolCallName } ::
        consumeToolOnly rest (some { id := e.toolCallID, name := e.toolCallName })
    | StreamEventType.toolCallDelta =>
      match st with
      | some p => consumeToolOnly rest (some { p with args := p.args ++ e.toolCallInput })
      | none => consumeToolOnly rest none
    | StreamEventType.toolCallEnd =>
      match st with
      | some p =>
        { type := EventType.toolCallEnd
          toolCallID := p.id
          toolCallName := p.name
          toolInput := if e.toolCallInput ≠ "" then e.toolCallInput else p.args } ::
          consumeToolOnly rest none
      | none => consumeToolOnly rest none
    | _ => consumeToolOnly rest st

/-- Membership in `observedCallIds` is the existence of a tool-call event
with that id. -/
theorem mem_observedCallIds (s : List StreamEvent) (id : String) :
    id ∈ observedCallIds s ↔
    ∃ e ∈ s, (e.type = StreamEventType.toolCallStart ∨
      e.type = StreamEventType.toolCallDelta ∨
      e.type = StreamEventType.toolCallEnd) ∧ e.toolCallID = id := by
  unfold observedCallIds
  rw [List.mem_dedup, List.mem_map]
  constructor
  · rintro ⟨e, he, rfl⟩
    obtain ⟨hmem, hpred⟩ := List.mem_filter.mp he
    refine ⟨e, hmem, ?_, rfl⟩
    simpa using hpred
  · rintro ⟨e, hmem, hpred, rfl⟩
    exact ⟨e, List.mem_filter.mpr ⟨hmem, by simpa using hpred⟩, rfl⟩

/-- An id with no tool-call event in the stream has an empty per-id
projection. -/
theorem streamCallEvents_nil_of_not_observed :
    ∀ (s : List StreamEvent) (id : String), id ∉ observedCallIds s →
      streamCallEvents id s = [] := by
  intro s id h
  induction s with
  | nil => rfl
  | cons x rest ih =>
    have hx : ¬ ((x.type = StreamEventType.toolCallStart ∨
        x.type = StreamEventType.toolCallDelta ∨
        x.type = StreamEventType.toolCallEnd) ∧ x.toolCallID = id) := by
      intro hcontra
      exact h ((mem_observedCallIds _ _).mpr
        ⟨x, List.mem_cons_self _ _, hcontra.1, hcontra.2⟩)
    have hrest : id ∉ observedCallIds rest := by
      intro hmem
      obtain ⟨e, he, hp, hid⟩ := (mem_observedCallIds _ _).mp hmem
      exact h ((mem_observedCallIds _ _).mpr
        ⟨e, List.mem_cons_of_mem _ he, hp, hid⟩)
    unfold streamCallEvents
    rw [if_neg hx]
    exact ih hrest

/-- `streamCallEvents` cons equations. -/
theorem streamCallEvents_cons_keep (id : String) (e : StreamEvent)
    (l : List StreamEvent)
    (h : (e.type = StreamEventType.toolCallStart ∨
      e.type = StreamEventType.toolCallDelta ∨
      e.type = StreamEventType.toolCallEnd) ∧ e.toolCallID = id) :
    streamCallEvents id (e :: l) = e :: streamCallEvents id l := by
  unfold streamCallEvents
  rw [if_pos h]
  cases l <;> rfl

theorem streamCallEvents_cons_skip (id : String) (e : StreamEvent)
    (l : List StreamEvent)
    (h : ¬ ((e.type = StreamEventType.toolCallStart ∨
      e.type = StreamEventType.toolCallDelta ∨
      e.type = StreamEventType.toolCallEnd) ∧ e.toolCallID = id)) :
    streamCallEvents id (e :: l) = streamCallEvents id l := by
  unfold streamCallEvents
  rw [if_neg h]
  cases l <;> rfl

/-- `agentCallEvents` cons equations. -/
theorem agentCallEvents_cons_keep (id : String) (e : Event) (l : List Event)
    (h : (e.type = EventType.toolCallStart ∨ e.type = EventType.toolCallEnd) ∧
      e.toolCallID = id) :
    agentCallEvents id (e :: l) = e :: agentCallEvents id l := by
  unfold agentCallEvents
  rw [if_pos h]
  cases l <;> rfl

theorem agentCallEvents_cons_skip (id : String) (e : Event) (l : List Event)
    (h : ¬ ((e.type = EventType.toolCallStart ∨ e.type = EventType.toolCallEnd) ∧
      e.toolCallID = id)) :
    agentCallEvents id (e :: l) = agentCallEvents id l := by
  unfold agentCallEvents
  rw [if_neg h]
  cases l <;> rfl

/-- Frame property: the agent's start/end output for one call id is fully
determined by the stream events carrying that id and that id's pending
entry — events of other ids do not interfere.  Needs error-freedom (an
error truncates everything) and the invariant that every pending entry's
recorded id is its key. -/
theorem consume_frame :
    ∀ (s : List StreamEvent) (acc : StreamAcc) (id : String),
      (∀ e ∈ s, e.type ≠ StreamEventType.error) →
      (∀ kp ∈ acc.pendingCalls, kp.2.id = kp.1) →
      agentCallEvents id (consumeStream s acc).1 =
        consumeToolOnly (streamCallEvents id s) (alGet acc.pendingCalls id) := by
  intro s
  induction s with
  | nil =>
    intro acc id _ _
    rfl
  | cons x rest ih =>
    obtain ⟨xt, xtext, xid, xname, xinput, xerr, xusage⟩ := x
    intro acc id hne hinv
    have hrest : ∀ e ∈ rest, e.type ≠ StreamEventType.error :=
      fun e he => hne e (List.mem_cons_of_mem _ he)
    cases xt
    case textDelta =>
      simp only [consumeStream]
      rw [agentCallEvents_cons_skip _ _ _ (by simp),
        streamCallEvents_cons_skip _ _ _ (by simp),
        ih { acc with textContent := acc.textContent ++ xtext } id hrest hinv]
    case toolCallStart =>
      have hinv2 : ∀ kp ∈ alInsert acc.pendingCalls xid
          ({ id := xid, name := xname } : PendingToolCall), kp.2.id = kp.1 := by
        intro kp hkp
        rcases mem_alInsert hkp with rfl | hkp
        · rfl
        · exact hinv kp hkp
      simp only [consumeStream]
      by_cases hid : xid = id
      · subst hid
        rw [agentCallEvents_cons_keep _ _ _ (by simp),
          streamCallEvents_cons_keep _ _ _ (by simp)]
        simp only [consumeToolOnly]
        congr 1
        rw [ih _ xid hrest hinv2]
        simp [alGet_alInsert]
      · have hid2 : ¬ (id = xid) := fun h => hid h.symm
        rw [agentCallEvents_cons_skip _ _ _ (by simp [hid]),
          streamCallEvents_cons_skip _ _ _ (by simp [hid]),
          ih _ id hrest hinv2]
        simp [alGet_alInsert, hid2]
    case toolCallDelta =>
      cases hg : alGet acc.pendingCalls xid with
      | some pending =>
        have hinv2 : ∀ kp ∈ alInsert acc.pendingCalls xid
            ({ pending with args := pending.args ++ xinput }), kp.2.id = kp.1 := by
          intro kp hkp
          rcases mem_alInsert hkp with rfl | hkp
          · exact hinv (xid, pending) (alGet_mem hg)
          · exact hinv kp hkp
        simp only [consumeStream, hg]
        by_cases hid : xid = id
        · subst hid
          rw [streamCallEvents_cons_keep _ _ _ (by simp), hg]
          simp only [consumeToolOnly]
          rw [ih _ xid hrest hinv2]
          simp [alGet_alInsert]
        · have hid2 : ¬ (id = xid) := fun h => hid h.symm
          rw [streamCallEvents_cons_skip _ _ _ (by simp [hid]),
            ih _ id hrest hinv2]
          simp [alGet_alInsert, hid2]
      | none =>
        simp only [consumeStream, hg]
        by_cases hid : xid = id
        · subst hid
          rw [streamCallEvents_cons_keep _ _ _ (by simp), hg]
          simp only [consumeToolOnly]
          rw [ih _ xid hrest hinv, hg]
        · rw [streamCallEvents_cons_skip _ _ _ (by simp [hid]),
            ih _ id hrest hinv]
    case toolCallEnd =>
      cases hg : alGet acc.pendingCalls xid with
      | some pending =>
        have hpid : pending.id = xid := hinv (xid, pending) (alGet_mem hg)
        have hinv2 : ∀ kp ∈ alErase acc.pendingCalls xid, kp.2.id = kp.1 :=
          fun kp hkp => hinv kp (mem_alErase hkp)
        simp only [consumeStream, hg]
        by_cases hid : xid = id
        · subst hid
          rw [agentCallEvents_cons_keep _ _ _ (by simp [hpid]),
            streamCallEvents_cons_keep _ _ _ (by simp), hg]
          simp only [consumeToolOnly]
          congr 1
          rw [ih _ xid hrest hinv2]
          simp [alGet_alErase]
        · have hid2 : ¬ (id = xid) := fun h => hid h.symm
          rw [agentCallEvents_cons_skip _ _ _ (by simp [hpid, hid]),
            streamCallEvents_cons_skip _ _ _ (by simp [hid]),
            ih _ id hrest hinv2]
          simp [alGet_alErase, hid2]
      | none =>
        simp only [consumeStream, hg]
        by_cases hid : xid = id
        · subst hid
          rw [streamCallEvents_cons_keep _ _ _ (by simp), hg]
          simp only [consumeToolOnly]
          rw [ih _ xid hrest hinv, hg]
        · rw [streamCallEvents_cons_skip _ _ _ (by simp [hid]),
            ih _ id hrest hinv]
    case error =>
      exact absurd rfl (hne _ (List.mem_cons_self _ _))
    case done =>
      simp only [consumeStream]
      rw [streamCallEvents_cons_skip _ _ _ (by simp),
        ih { acc with usage := xusage } id hrest hinv]

/-- Deltas preserve the pending entry; the final end event closes it with
the entry's call id. -/
theorem consumeToolOnly_deltas_end :
    ∀ (m : List StreamEvent) (p : PendingToolCall) (r : StreamEvent),
      r.type = StreamEventType.toolCallEnd →
      (∀ d ∈ m, d.type = StreamEventType.toolCallDelta) →
      ∃ b, consumeToolOnly (m ++ [r]) (some p) = [b] ∧
        b.type = EventType.toolCallEnd ∧ b.toolCallID = p.id := by
  intro m
  induction m with
  | nil =>
    intro p r htype _
    obtain ⟨rt, f1, f2, f3, f4, f5, f6⟩ := r
    simp only at htype
    subst htype
    exact ⟨_, rfl, rfl, rfl⟩
  | cons d m ih =>
    intro p r htype hall
    obtain ⟨dt, g1, g2, g3, g4, g5, g6⟩ := d
    have hd : dt = StreamEventType.toolCallDelta := by
      simpa using hall _ (List.mem_cons_self _ _)
    subst hd
    have hall2 : ∀ d ∈ m, d.type = StreamEventType.toolCallDelta :=
      fun d hd => hall d (List.mem_cons_of_mem _ hd)
    obtain ⟨b, hb, hbt, hbid⟩ := ih { p with args := p.args ++ g4 } r htype hall2
    exact ⟨b, hb, hbt, hbid⟩

/-- A complete per-id block (start, deltas, end) makes the agent emit
exactly one start then one end, both carrying the block's call id. -/
theorem consumeToolOnly_block :
    ∀ (f : StreamEvent) (m : List StreamEvent) (r : StreamEvent),
      f.type = StreamEventType.toolCallStart →
      r.type = StreamEventType.toolCallEnd →
      (∀ d ∈ m, d.type = StreamEventType.toolCallDelta) →
      ∃ a b, consumeToolOnly (f :: (m ++ [r])) none = [a, b] ∧
        a.type = EventType.toolCallStart ∧ a.toolCallID = f.toolCallID ∧
        b.type = EventType.toolCallEnd ∧ b.toolCallID = f.toolCallID := by
  intro f m r hf hr hall
  obtain ⟨ft, f1, f2, f3, f4, f5, f6⟩ := f
  simp only at hf
  subst hf
  obtain ⟨b, hb, hbt, hbid⟩ := consumeToolOnly_deltas_end m
    { id := f2, name := f3 } r hr hall
  simp only [consumeToolOnly]
  rw [hb]
  exact ⟨_, b, rfl, rfl, rfl, hbt, hbid⟩

/-- Members of the per-id projection carry that id. -/
theorem mem_streamCallEvents :
    ∀ (s : List StreamEvent) (id : String) (e : StreamEvent),
      e ∈ streamCallEvents id s → e.toolCallID = id := by
  intro s id e hmem
  induction s with
  | nil => simp [streamCallEvents] at hmem
  | cons x rest ih =>
    by_cases hc : (x.type = StreamEventType.toolCallStart ∨
        x.type = StreamEventType.toolCallDelta ∨
        x.type = StreamEventType.toolCallEnd) ∧ x.toolCallID = id
    · rw [streamCallEvents_cons_keep _ _ _ hc] at hmem
      rcases List.mem_cons.mp hmem with rfl | hmem
      · exact hc.2
      · exact ih hmem
    · rw [streamCallEvents_cons_skip _ _ _ hc] at hmem
      exact ih hmem

/-- A well-formed provider stream, per the spec's StreamEvent invariant:
no error event, and for each observed call id the id's events are exactly
one start, then deltas, then exactly one end. -/
def WellFormedStream (s : List StreamEvent) : Prop :=
  (∀ e ∈ s, e.type ≠ StreamEventType.error) ∧
  ∀ id ∈ observedCallIds s, ∃ f m r,
    streamCallEvents id s = f :: (m ++ [r]) ∧
    f.type = StreamEventType.toolCallStart ∧
    r.type = StreamEventType.toolCallEnd ∧
    ∀ d ∈ m, d.type = StreamEventType.toolCallDelta

/-- C7 (amended): (1) unconditionally, every `tool-call-end` AgentEvent
the agent emits is preceded by a `tool-call-start` AgentEvent with the
same call id — no orphan ends; (2) for well-formed streams (per call id:
one start, then deltas, then one end; no error), the agent emits exactly
one start/end pair per distinct observed call id and no call events for
any other id.  For arbitrary streams, deltas or ends for a call id whose
start was never received are ignored rather than paired. -/
theorem tool_call_pairing :
    (∀ (s : List StreamEvent) (u : List Event) (e : Event) (v : List Event),
      (consumeStream s {}).1 = u ++ e :: v →
      e.type = EventType.toolCallEnd →
      ∃ e2 ∈ u, e2.type = EventType.toolCallStart ∧
        e2.toolCallID = e.toolCallID) ∧
    (∀ s : List StreamEvent, WellFormedStream s →
      (∀ id ∈ observedCallIds s,
        ∃ a b, agentCallEvents id (consumeStream s {}).1 = [a, b] ∧
          a.type = EventType.toolCallStart ∧ a.toolCallID = id ∧
          b.type = EventType.toolCallEnd ∧ b.toolCallID = id) ∧
      ∀ id, id ∉ observedCallIds s →
        agentCallEvents id (consumeStream s {}).1 = []) := by
  constructor
  · intro s u e v hdec hend
    have hok := consume_endsOk s {} [] (by intro kp hkp; simp at hkp)
    rcases endsOk_spec _ _ hok u e v hdec hend with hmem | h
    · simp at hmem
    · exact h
  · intro s hwf
    have hempty : ∀ kp ∈ ({} : StreamAcc).pendingCalls, kp.2.id = kp.1 := by
      intro kp hkp
      simp at hkp
    constructor
    · intro id hid
      obtain ⟨f, m, r, hsplit, hf, hr, hm⟩ := hwf.2 id hid
      have hfid : f.toolCallID = id := mem_streamCallEvents s id f
        (by rw [hsplit]; exact List.mem_cons_self _ _)
      have hframe := consume_frame s {} id hwf.1 hempty
      rw [hsplit] at hframe
      have hnone : alGet (({} : StreamAcc)).pendingCalls id = none := rfl
      rw [hnone] at hframe
      obtain ⟨a, b, hab, h1, h2, h3, h4⟩ := consumeToolOnly_block f m r hf hr hm
      rw [hab] at hframe
      exact ⟨a, b, hframe, h1, by rw [h2, hfid], h3, by rw [h4, hfid]⟩
    · intro id hid
      have hframe := consume_frame s {} id hwf.1 hempty
      rw [streamCallEvents_nil_of_not_observed s id hid] at hframe
      exact hframe

/-- A concrete well-formed one-call stream for the witness. -/
def exPairStream : List StreamEvent :=
  [{ type := StreamEventType.toolCallStart, toolCallID := "x", toolCallName := "t" },
   { type := StreamEventType.toolCallEnd, toolCallID := "x", toolCallInput := "{}" }]

/-- The agent events the pair stream produces. -/
def exStartAgentEvent : Event :=
  { type := EventType.toolCallStart, toolCallID := "x", toolCallName := "t" }

def exEndAgentEvent : Event :=
  { type := EventType.toolCallEnd, toolCallID := "x", toolCallName := "t"
    toolInput := "{}" }

theorem tool_call_pairing_witness :
    (∃ e2 ∈ [exStartAgentEvent],
      e2.type = EventType.toolCallStart ∧
      e2.toolCallID = exEndAgentEvent.toolCallID) ∧
    (∃ a b, agentCallEvents "x" (consumeStream exPairStream {}).1 = [a, b] ∧
      a.type = EventType.toolCallStart ∧ a.toolCallID = "x" ∧
      b.type = EventType.toolCallEnd ∧ b.toolCallID = "x") := by
  have hwf : WellFormedStream exPairStream := by
    constructor
    · decide
    · intro id hid
      have hobs : observedCallIds exPairStream = ["x"] := by decide
      rw [hobs] at hid
      rcases List.mem_singleton.mp hid with rfl
      refine ⟨{ type := StreamEventType.toolCallStart, toolCallID := "x", toolCallName := "t" }, [], { type := StreamEventType.toolCallEnd, toolCallID := "x", toolCallInput := "{}" }, by decide, rfl, rfl, ?_⟩
      intro d hd
      simp at hd
  constructor
  · exact tool_call_pairing.1 exPairStream [exStartAgentEvent]
      exEndAgentEvent [] (by decide) rfl
  · exact (tool_call_pairing.2 exPairStream hwf).1 "x"
      (by have hobs : observedCallIds exPairStream = ["x"] := by decide
          rw [hobs]
          exact List.mem_singleton.mpr rfl)

end Goder
